import Mathlib

/-!
Verification development for the sandboxed-tor-browser launcher.

The Go sources of the launcher are shallowly embedded below.  Byte streams
are modelled as `List Nat` (each element a byte value `< 256`); Go's
`io.ReadFull` is modelled by `readN`, which fails (like a short read) when
the stream does not hold enough bytes.  Fallible Go functions become
`Except`-valued Lean functions; a Go runtime panic is modelled as a
distinguished error.

The file is organised as definitions first (one section per embedded
source file), followed by the theorems.
-/

set_option maxRecDepth 10000

namespace STB

/-- `io.ReadFull`: take exactly `n` bytes off the front of a stream, or fail. -/
def readN (n : Nat) (s : List Nat) : Option (List Nat × List Nat) :=
  if n ≤ s.length then some (s.take n, s.drop n) else none

/-- The byte values of an ASCII string (for ASCII text, Go's `[]byte(s)`
conversion yields exactly the code points). -/
def asciiBytes (s : String) : List Nat := s.data.map Char.toNat

/-! ## SOCKS surrogate (`surrogate.go`, package tor, and package socks5) -/

/-- One nibble to its lowercase hex digit byte, as in Go's
`encoding/hex` table `"0123456789abcdef"`. -/
def hexDigitByte (n : Nat) : Nat := if n < 10 then 48 + n else 87 + n

/-- `hex.EncodeToString` restricted to byte output: each input byte `b`
becomes the two bytes `hextable[b>>4], hextable[b&0x0f]`. -/
def hexEncodeBytes (bs : List Nat) : List Nat :=
  bs.flatMap (fun b => [hexDigitByte (b / 16 % 16), hexDigitByte (b % 16)])

/-- A byte is a lowercase hex character: `0`..`9` or `a`..`f`. -/
def isLowerHexByte (b : Nat) : Prop := (48 ≤ b ∧ b ≤ 57) ∨ (97 ≤ b ∧ b ≤ 102)

/-- `socksProxy.newTag`: the stored tag is
`"sandboxed-tor-browser:" + hex.EncodeToString(b)` for the 16 random
bytes `b`. -/
def newTag (b : List Nat) : List Nat :=
  asciiBytes "sandboxed-tor-browser:" ++ hexEncodeBytes b

/-- `socksProxy.getTag`: `":" + p.tag`. -/
def getTag (tag : List Nat) : List Nat := asciiBytes ":" ++ tag

/-- The SOCKS5 authentication data captured by the server handshake
(`socks5.AuthInfo`): `Uname = none` models a nil `[]byte`. -/
structure AuthInfo where
  Uname : Option (List Nat)
  Passwd : List Nat
  deriving Repr, DecidableEq

/-- `socksProxy.rewriteTag`: fail when `req.Auth.Uname` is nil; otherwise
append `getTag` to the password; fail when the result exceeds 255 bytes. -/
def rewriteTag (tag : List Nat) (auth : AuthInfo) : Except String AuthInfo :=
  match auth.Uname with
  | none => .error "invalid isolation requested by Tor Browser"
  | some u =>
    let passwd := auth.Passwd ++ getTag tag
    if passwd.length > 255 then
      .error "failed to redispatch, socks5 password too long"
    else
      .ok { Uname := some u, Passwd := passwd }

/-- SOCKS5 reply code `GeneralFailure` (0x01). -/
def replyGeneralFailure : Nat := 1

/-- Outcome of `socksProxy.handleConn` after a successful client
handshake: either `socks5.Redispatch` is invoked upstream carrying the
rewritten authentication data, or the request fails and a failure reply
code is sent to the client with nothing re-dispatched. -/
inductive HandleOutcome
  | dispatched (auth : AuthInfo)
  | failedReply (code : Nat)
  deriving Repr, DecidableEq

/-- `socksProxy.handleConn`, from the point where the client handshake
produced `req`: `rewriteTag` failure replies `ReplyGeneralFailure` and
returns; success re-dispatches the rewritten request upstream
(`socks5.Redispatch` forwards `req.Auth` verbatim as the upstream
username/password). -/
def handleConn (tag : List Nat) (auth : AuthInfo) : HandleOutcome :=
  match rewriteTag tag auth with
  | .error _ => .failedReply replyGeneralFailure
  | .ok auth2 => .dispatched auth2

/-- `Request.authRFC1929` (`server_rfc1929.go`): parse the RFC 1929
username/password message off the client stream.  Returns the bytes
written back to the client and, on success, the captured
`(uname, passwd)` pair; `req.Auth` is assigned only in the success case.
The failure response is `[0x01, 0x01]` (ver, fail) and the success
response is `[0x01, 0x00]` (ver, success). -/
def authRFC1929 (input : List Nat) :
    List Nat × Except String (List Nat × List Nat) :=
  match input with
  | [] => ([1, 1], .error "read of auth version failed")
  | v :: rest =>
    if v ≠ 1 then ([1, 1], .error "auth version mismatch") else
    match rest with
    | [] => ([1, 1], .error "read of ulen failed")
    | ulen :: rest2 =>
      if ulen < 1 then ([1, 1], .error "username with 0 length") else
      match readN ulen rest2 with
      | none => ([1, 1], .error "read of uname failed")
      | some (uname, rest3) =>
        match rest3 with
        | [] => ([1, 1], .error "read of plen failed")
        | plen :: rest4 =>
          if plen < 1 then ([1, 1], .error "password with 0 length") else
          match readN plen rest4 with
          | none => ([1, 1], .error "read of passwd failed")
          | some (passwd, _) => ([1, 0], .ok (uname, passwd))

/-! ## Control-port surrogate pre-auth (`surrogate.go`, package tor) -/

/-- `crLf`. -/
def crLf : String := "\r\n"

/-- `responseOk`. -/
def responseOk : String := "250 OK" ++ crLf

/-- `errAuthenticationRequired`. -/
def errAuthenticationRequired : String := "514 Authentication required" ++ crLf

/-- `errUnrecognizedCommand`. -/
def errUnrecognizedCommand : String := "510 Unrecognized command" ++ crLf

/-- A byte Go's `unicode.IsSpace` treats as white space, restricted to
ASCII (the control protocol is ASCII text). -/
def isSpaceGo (c : Char) : Bool :=
  c = ' ' || c = '\t' || c = '\n' || c = (Char.ofNat 11) ||
    c = (Char.ofNat 12) || c = '\r'

/-- `bytes.TrimSpace` / `strings.TrimSpace` on ASCII text: drop white
space from both ends. -/
def goTrim (cs : List Char) : List Char :=
  ((cs.dropWhile isSpaceGo).reverse.dropWhile isSpaceGo).reverse

/-- `strings.Split(s, " ")`: split at every single space, keeping empty
fields; the result always has at least one element. -/
def splitOnSpace : List Char → List (List Char)
  | [] => [[]]
  | c :: rest =>
    if c = ' ' then [] :: splitOnSpace rest
    else
      match splitOnSpace rest with
      | t :: ts => (c :: t) :: ts
      | [] => [[c]]

/-- `strings.ToUpper` on ASCII text. -/
def goToUpper (cs : List Char) : List Char :=
  cs.map (fun c => if 'a' ≤ c && c ≤ 'z' then Char.ofNat (c.toNat - 32) else c)

/-- `ctrlProxyConn.appConnReadLine`, token split: trim the raw line and
split on single spaces. -/
def splitCmdOf (line : List Char) : List (List Char) :=
  splitOnSpace (goTrim line)

/-- `ctrlProxyConn.appConnReadLine`, command extraction:
`strings.ToUpper(strings.TrimSpace(splitCmd[0]))`. -/
def cmdOf (line : List Char) : List Char :=
  goToUpper (goTrim ((splitCmdOf line).headD []))

/-- Decimal value of a digit string. -/
def decValue (cs : List Char) : Nat :=
  cs.foldl (fun a c => a * 10 + (c.toNat - 48)) 0

/-- Whether Go's `strconv.ParseInt(v, 10, 32)` succeeds: an optional
sign followed by at least one decimal digit, with the value within the
signed 32-bit range. -/
def goParseInt32Ok (s : List Char) : Bool :=
  match s with
  | [] => false
  | c :: rest =>
    let digits := if c = '+' || c = '-' then rest else c :: rest
    digits ≠ [] && digits.all Char.isDigit &&
      decValue digits ≤ (if c = '-' then 2 ^ 31 else 2 ^ 31 - 1)

/-- The synthetic `PROTOCOLINFO` reply advertising the fixed auth methods
and the real daemon's version string. -/
def protocolInfoResponse (torVersion : String) : String :=
  "250-PROTOCOLINFO 1\r\n250-AUTH METHODS=NULL,HASHEDPASSWORD\r\n250-VERSION Tor=\""
    ++ torVersion ++ "\"\r\n" ++ responseOk

/-- `ctrlProxyConn.onCmdProtocolInfo`: the first argument that does not
parse as a 32-bit integer draws a `513 No such version` reply (with the
source's unbalanced quote); otherwise the synthetic reply is sent. -/
def onCmdProtocolInfo (torVersion : String) (splitCmd : List (List Char)) : String :=
  match (splitCmd.drop 1).find? (fun v => ¬ goParseInt32Ok v) with
  | some v => "513 No such version \"" ++ String.mk v ++ crLf
  | none => protocolInfoResponse torVersion

/-- Outcome of `ctrlProxyConn.processPreAuth`: `authed rest` means the
loop returned `nil` after `AUTHENTICATE` with `rest` still unread (the
connection proceeds to `proxyAndFilerApp`); `closed` means it returned a
non-nil error, after which `handle` returns and the deferred
`appConn.Close()` closes the connection; `readErr` models an I/O error
on `appConnReadLine` (also a close). -/
inductive PreAuthOutcome
  | authed (rest : List (List Char))
  | closed (msg : String)
  | readErr
  deriving Repr, DecidableEq

/-- `ctrlProxyConn.processPreAuth`: the pre-auth command loop over the
client's lines, with the `sentProtocolInfo` flag threaded explicitly.
Returns the responses written to the client and the outcome. -/
def processPreAuth (tv : String) (sentPI : Bool) :
    List (List Char) → List String × PreAuthOutcome
  | [] => ([], .readErr)
  | line :: rest =>
    let splitCmd := splitCmdOf line
    let cmd := cmdOf line
    if cmd = "PROTOCOLINFO".data then
      if sentPI then
        ([errAuthenticationRequired],
          .closed "client already sent PROTOCOLINFO already")
      else
        let pr := processPreAuth tv true rest
        (onCmdProtocolInfo tv splitCmd :: pr.1, pr.2)
    else if cmd = "AUTHENTICATE".data then ([responseOk], .authed rest)
    else if cmd = "AUTHCHALLENGE".data then
      ([errUnrecognizedCommand], .closed "client sent AUTHCHALLENGE, when not supported")
    else if cmd = "QUIT".data then ([], .closed "client requested connection close")
    else ([errAuthenticationRequired], .closed "invalid app command")

/-- A response string is a synthetic `PROTOCOLINFO` answer: it begins
with `250-PROTOCOLINFO` or with `513 No such version`. -/
def isPIAnswer (r : String) : Bool :=
  r.data.take 16 == "250-PROTOCOLINFO".data ||
    r.data.take 19 == "513 No such version".data

/-! ## X11 surrogate (`internal/sandbox/x11/surrogate.go`) -/

/-- `binary.ByteOrder`, as selected by the connection setup byte. -/
inductive ByteOrder
  | be
  | le
  deriving Repr, DecidableEq

/-- `ByteOrder.Uint16` on two bytes. -/
def bo16 (bo : ByteOrder) (b0 b1 : Nat) : Nat :=
  match bo with
  | .be => b0 * 256 + b1
  | .le => b1 * 256 + b0

/-- `ByteOrder.PutUint16`. -/
def boPut16 (bo : ByteOrder) (v : Nat) : List Nat :=
  match bo with
  | .be => [v / 256 % 256, v % 256]
  | .le => [v % 256, v / 256 % 256]

/-- `ByteOrder.Uint32` on four bytes. -/
def bo32 (bo : ByteOrder) (b0 b1 b2 b3 : Nat) : Nat :=
  match bo with
  | .be => ((b0 * 256 + b1) * 256 + b2) * 256 + b3
  | .le => ((b3 * 256 + b2) * 256 + b1) * 256 + b0

/-- `replyRewrite`: one scheduled reply rewrite, keyed by sequence
number, carrying the replacement 32-byte body. -/
structure replyRewrite where
  seq : Nat
  body : List Nat
  descr : String
  deriving Repr, DecidableEq

/-- The per-connection mutable state of `surrogateInstance` relevant to
the request/reply flow: the negotiated byte order, the 16-bit request
sequence counter, and the reply rewrite queue. -/
structure surrogateState where
  byteOrder : ByteOrder
  reqSeq : Nat
  replyRewriteQueue : List replyRewrite
  deriving Repr, DecidableEq

/-- `newSurrogateInstance`: `reqSeq` starts at 1, the rewrite queue
empty (the byte order is set later by the connection setup). -/
def newSurrogateState (bo : ByteOrder) : surrogateState :=
  { byteOrder := bo, reqSeq := 1, replyRewriteQueue := [] }

/-- `injectRequestError`: the synthetic 32-byte Error reply with
`resp_type = 0`, `code = 1 (Request)`, the current sequence number at
offset 2, and the offending major opcode at offset 10. -/
def injectRequestErrorBody (bo : ByteOrder) (seq opCode : Nat) : List Nat :=
  [0, 1] ++ boPut16 bo seq ++ [0, 0, 0, 0, 0, 0] ++ [opCode] ++
    List.replicate 21 0

/-- `injectNoOperationRequest`: the 4-byte NoOperation request, opcode
127 and a length field of 1. -/
def noOperationRequest (bo : ByteOrder) : List Nat :=
  [127, 0] ++ boPut16 bo 1

/-- `scheduleQueryExtensionReplyRewrite`: the queued replacement body is
32 bytes with `resp_type = 1` and the sequence number at offset 2; all
other bytes, `reply_length` (offset 4), `present` (8), `major_opcode`
(9), `first_event` (10) and `first_error` (11) included, are zero. -/
def queryExtensionRewriteBody (bo : ByteOrder) (seq : Nat) : List Nat :=
  [1, 0] ++ boPut16 bo seq ++ List.replicate 28 0

/-- Result of `consumeClientRequest`: the updated state, the bytes
written to the X server, the bytes injected toward the client, and the
unread remainder of the client stream. -/
structure clientReqResult where
  st : surrogateState
  toServer : List Nat
  toClient : List Nat
  rest : List Nat
  deriving Repr, DecidableEq

/-- The header-reading phase of `consumeClientRequest`: read the 4-byte
base header; when its 16-bit length field is zero the BIG-REQUESTS
extension is in use and four more bytes give the 32-bit length.
Returns the header bytes read, the header length, the length field in
4-byte units, and the unread remainder. -/
def readRequestHeader (bo : ByteOrder) (input : List Nat) :
    Option (List Nat × Nat × Nat × List Nat) :=
  match readN 4 input with
  | none => none
  | some (hdr0, rest0) =>
    let len16 := bo16 bo (hdr0.getD 2 0) (hdr0.getD 3 0)
    if len16 = 0 then
      match readN 4 rest0 with
      | none => none
      | some (hdr1, rest1) =>
        some (hdr0 ++ hdr1, 8,
          bo32 bo (hdr1.getD 0 0) (hdr1.getD 1 0)
            (hdr1.getD 2 0) (hdr1.getD 3 0), rest1)
    else some (hdr0, 4, len16, rest0)

/-- `surrogateInstance.consumeClientRequest`: read one request off the
client stream and handle it.  `allowNames` models the recorded
`extensionOpRevMap` key set (allow-listed extension names, as byte
strings) and `extOps` the recorded `extensionOpFwdMap` key set
(server-assigned extension opcodes).  A Go slice-bounds violation while
extracting the `QueryExtension` name is modelled as an error whose text
begins with `panic`. -/
def consumeClientRequest (allowNames : List (List Nat)) (extOps : List Nat)
    (st : surrogateState) (input : List Nat) : Except String clientReqResult :=
  match readRequestHeader st.byteOrder input with
  | none => .error "io: short request header"
  | some (hdrBytes, hdrLen, lenUnits, rest1) =>
    let opCode := hdrBytes.getD 0 0
    if lenUnits * 4 < hdrLen then .error "invalid X11 request length"
    else
      let reqLen := lenUnits * 4 - hdrLen
      let bumped := { st with reqSeq := (st.reqSeq + 1) % 65536 }
      if opCode = 98 then
          -- QueryExtension
          match readN reqLen rest1 with
          | none => .error "io: short QueryExtension body"
          | some (reqBody, rest2) =>
            if reqBody.length < 2 then .error "panic: Uint16 of short slice"
            else
              let n := bo16 st.byteOrder (reqBody.getD 0 0) (reqBody.getD 1 0)
              if reqBody.length < 4 + n then .error "panic: slice bounds out of range"
              else
                let extName := (reqBody.drop 4).take n
                let st2 :=
                  if extName ∈ allowNames then bumped
                  else
                    { bumped with replyRewriteQueue :=
                        st.replyRewriteQueue ++
                          [⟨st.reqSeq,
                            queryExtensionRewriteBody st.byteOrder st.reqSeq,
                            "QueryExtension rejection"⟩] }
                .ok ⟨st2, hdrBytes ++ reqBody, [], rest2⟩
        else if 128 ≤ opCode ∧ ¬ opCode ∈ extOps then
          -- Prohibited extension request: inject an Error to the client,
          -- send a NoOperation in its place, discard the body.
          match readN reqLen rest1 with
          | none => .error "io: short body to discard"
          | some (_, rest2) =>
            .ok ⟨bumped, noOperationRequest st.byteOrder,
              injectRequestErrorBody st.byteOrder st.reqSeq opCode, rest2⟩
        else
          -- ListExtensions (99) and every other opcode: forward verbatim.
          match readN reqLen rest1 with
          | none => .error "io: short request body"
          | some (reqBody, rest2) =>
            .ok ⟨bumped, hdrBytes ++ reqBody, [], rest2⟩

/-- Result of `consumeServerReply`: the updated state, the bytes
forwarded or injected toward the client, and the unread remainder of
the server stream. -/
structure serverRepResult where
  st : surrogateState
  toClient : List Nat
  rest : List Nat
  deriving Repr, DecidableEq

/-- `surrogateInstance.consumeServerReply`: read one 32-byte reply
header (plus body for Reply/GenericEvent) off the server stream; when
the head of the rewrite queue matches the sequence number, a Reply is
discarded and replaced by the queued 32-byte body, an Error just pops
the queue entry. -/
def consumeServerReply (st : surrogateState) (input : List Nat) :
    Except String serverRepResult :=
  match readN 32 input with
  | none => .error "io: short reply header"
  | some (hdr, rest0) =>
    let t := hdr.getD 0 0
    let repLen :=
      if t = 1 ∨ t = 35 then
        (bo32 st.byteOrder (hdr.getD 4 0) (hdr.getD 5 0) (hdr.getD 6 0)
          (hdr.getD 7 0)) * 4
      else 0
    let seq := bo16 st.byteOrder (hdr.getD 2 0) (hdr.getD 3 0)
    let popped :=
      match st.replyRewriteQueue with
      | [] => (none, st.replyRewriteQueue)
      | head :: tl =>
        if seq = head.seq then
          if t = 1 then (some head, tl)
          else if t = 0 then (none, tl)
          else (none, head :: tl)
        else (none, head :: tl)
    match popped with
    | (some rw, q2) =>
      match readN repLen rest0 with
      | none => .error "io: short reply body to discard"
      | some (_, rest1) =>
        .ok ⟨{ st with replyRewriteQueue := q2 }, rw.body, rest1⟩
    | (none, q2) =>
      match readN repLen rest0 with
      | none => .error "io: short reply body"
      | some (body, rest1) =>
        .ok ⟨{ st with replyRewriteQueue := q2 }, hdr ++ body, rest1⟩

/-- Result of `consumeClientConnectionSetup`: the bytes forwarded to the
X server, and on success the negotiated byte order plus the unread
remainder of the client stream. -/
structure setupResult where
  toServer : List Nat
  outcome : Except String (ByteOrder × List Nat)
  deriving Repr

/-- `surrogateInstance.consumeClientConnectionSetup`: parse the 12-byte
client setup header; reject an unknown byte-order byte or a protocol
version other than 11.0 before anything is written to the server; then
forward the header and the (padded) authorization name and data. -/
def byteOrderOf (b : Nat) : Option ByteOrder :=
  if b = 0x42 then some .be else if b = 0x6C then some .le else none

def consumeClientConnectionSetup (input : List Nat) : setupResult :=
  match readN 12 input with
  | none => ⟨[], .error "io: short setup header"⟩
  | some (hdr, rest0) =>
    match byteOrderOf (hdr.getD 0 0) with
    | none => ⟨[], .error "unable to determine byte order"⟩
    | some bo =>
      let protocolMajor := bo16 bo (hdr.getD 2 0) (hdr.getD 3 0)
      let protocolMinor := bo16 bo (hdr.getD 4 0) (hdr.getD 5 0)
      if ¬ (protocolMajor = 11 ∧ protocolMinor = 0) then
        ⟨[], .error "unsupported X protocol"⟩
      else
        let n := bo16 bo (hdr.getD 6 0) (hdr.getD 7 0)
        let d := bo16 bo (hdr.getD 8 0) (hdr.getD 9 0)
        let nPad := (4 - (n % 4)) % 4
        let dPad := (4 - (d % 4)) % 4
        match readN (n + nPad + d + dPad) rest0 with
        | none =>
          -- `copyFull` copies what is available before failing.
          ⟨hdr ++ rest0, .error "io: short auth data"⟩
        | some (auth, rest1) => ⟨hdr ++ auth, .ok (bo, rest1)⟩

/-- Iterate `consumeClientRequest` over the client stream `n` times
(the client→server loop of `proxyConns`). -/
def runClientRequests (allowNames : List (List Nat)) (extOps : List Nat) :
    Nat → surrogateState → List Nat → Except String surrogateState
  | 0, st, _ => .ok st
  | n + 1, st, input =>
    match consumeClientRequest allowNames extOps st input with
    | .error e => .error e
    | .ok r => runClientRequests allowNames extOps n r.st r.rest

/-! ## Loader cache parser (`internal/dynlib/cache.go`) -/

/-- `cacheEntry`: one accepted loader-cache record. -/
structure cacheEntry where
  key : List Nat
  value : List Nat
  flags : Nat
  osVersion : Nat
  hwcap : Nat
  deriving Repr, DecidableEq, Inhabited

/-- A failed load: either an `error` return (`goError`) or a Go runtime
panic (`goPanic`), which aborts the program instead of returning. -/
inductive LoadErr
  | goError (msg : String)
  | goPanic (msg : String)
  deriving Repr, DecidableEq

/-- `binary.LittleEndian.Uint32` on the first four bytes. -/
def le32 (b : List Nat) : Nat :=
  b.getD 0 0 + 256 * b.getD 1 0 + 65536 * b.getD 2 0 + 16777216 * b.getD 3 0

/-- `binary.LittleEndian.Uint64` on the first eight bytes. -/
def le64 (b : List Nat) : Nat :=
  le32 (b.take 4) + 4294967296 * le32 (b.drop 4)

/-- `cacheMagic`: `"ld.so-1.7.0\0"`. -/
def oldCacheMagic : List Nat := asciiBytes "ld.so-1.7.0" ++ [0]

/-- `cacheMagicNew`: `"glibc-ld.so.cache1.1"`. -/
def newCacheMagic : List Nat := asciiBytes "glibc-ld.so.cache1.1"

/-- `getNewLdCache`: strip the legacy header (12-byte magic, `u32 nlibs`,
`nlibs` 12-byte legacy records, 8-byte alignment pad) and return the
new-format region together with the legacy `nlibs`. -/
def getNewLdCache (b : List Nat) : Except LoadErr (List Nat × Nat) :=
  if oldCacheMagic.isPrefixOf b then
    let b1 := b.drop 12
    if b1.length < 4 then .error (.goError "dynlib: ld.so.cache truncated (nlibs)")
    else
      let nlibs := le32 (b1.take 4)
      let b2 := b1.drop 4
      let nSkip := 12 * nlibs
      if b2.length < nSkip then .error (.goError "dynlib: ld.so.cache truncated (libs[])")
      else
        let off := 16 + nSkip
        let b3 := b2.drop nSkip
        let padLen := (off + 8 - 1) / 8 * 8 - off
        if b3.length < padLen then .error (.goError "dynlib: ld.so.cache truncated (pad)")
        else .ok (b3.drop padLen, nlibs)
  else .error (.goError "dynlib: ld.so.cache has invalid old_magic")

/-- The `getString` closure of `LoadCache`.  The off-by-one upper-bound
check (`idx > len`, not `≥`) is preserved; when no NUL terminator
follows `idx`, `bytes.IndexByte` returns `-1` and the subsequent slice
expression `stringTable[idx : idx-1]` panics. -/
def goGetString (stringTable : List Nat) (idx : Nat) :
    Except LoadErr (List Nat) :=
  if idx > stringTable.length then
    .error (.goError "dynlib: string table index out of bounds")
  else
    let tail := stringTable.drop idx
    match tail.indexOf? 0 with
    | none => .error (.goPanic "slice bounds out of range (getString)")
    | some 0 => .ok []
    | some l => .ok (tail.take l)

/-- The amd64 `flagCheckFn`:
`flags & (flagX8664Lib64|flagElfLibc6) == (flagX8664Lib64|flagElfLibc6)`,
with `flagX8664Lib64 = 0x300` and `flagElfLibc6 = 3`. -/
def flagCheckAmd64 (flags : Nat) : Bool := flags &&& 0x303 = 0x303

/-- The per-key store of `Cache`, as an association list in first-seen
key order; per-key entry order is Go's append order. -/
def storeAppend : List (List Nat × List cacheEntry) → List Nat → cacheEntry →
    List (List Nat × List cacheEntry)
  | [], k, e => [(k, [e])]
  | (k0, es) :: t, k, e =>
    if k0 = k then (k0, es ++ [e]) :: t else (k0, es) :: storeAppend t k e

/-- The entry loop of `LoadCache`: parse each 24-byte record
`{flags, key_off, value_off, os_version, hwcap}`, resolve the strings,
and keep the entry unless its `os_version` exceeds the host's, its file
fails `ValidateLibraryClass` (abstracted as `validClass`), or its flags
fail the amd64 check. -/
def parseEntries (stringTable : List Nat) (ourOsVersion : Nat)
    (validClass : List Nat → Bool) :
    Nat → List Nat → List (List Nat × List cacheEntry) →
    Except LoadErr (List (List Nat × List cacheEntry))
  | 0, _, store => .ok store
  | n + 1, raw, store =>
    let rawE := raw.take 24
    let flags := le32 rawE
    let kIdx := le32 (rawE.drop 4)
    let vIdx := le32 (rawE.drop 8)
    let osv := le32 (rawE.drop 12)
    let hwcap := le64 (rawE.drop 16)
    match goGetString stringTable kIdx with
    | .error (.goPanic m) => .error (.goPanic m)
    | .error (.goError m) =>
      .error (.goError ("dynlib: failed to query key: " ++ m))
    | .ok key =>
      match goGetString stringTable vIdx with
      | .error (.goPanic m) => .error (.goPanic m)
      | .error (.goError m) =>
        .error (.goError ("dynlib: failed to query value: " ++ m))
      | .ok value =>
        let e : cacheEntry := ⟨key, value, flags, osv, hwcap⟩
        let store2 :=
          if ourOsVersion < osv then store
          else if ¬ validClass value then store
          else if flagCheckAmd64 flags then storeAppend store key e
          else store
        parseEntries stringTable ourOsVersion validClass n (raw.drop 24) store2

/-- `cacheEntries.Less`, reading the CURRENT array contents at indices
`i` and `j` (as `sort` does): bigger `hwcap` first, then bigger
`osVersion` first, then index order.  Note the missing early `false`
when `hwcap` (resp. `osVersion`) is strictly smaller. -/
def lessGo (arr : Array cacheEntry) (i j : Nat) : Bool :=
  let ei := arr.getD i default
  let ej := arr.getD j default
  if ei.hwcap > ej.hwcap then true
  else if ei.osVersion > ej.osVersion then true
  else decide (i < j)

/-- `cacheEntries.Swap` (out-of-range indices leave the array alone;
they never occur). -/
def swapGo (arr : Array cacheEntry) (i j : Nat) : Array cacheEntry :=
  let x := arr.getD i default
  let y := arr.getD j default
  (arr.setD i y).setD j x

/-- The inner loop of `sort.insertionSort`:
`for j := i; j > 0 && Less(j, j-1); j-- { Swap(j, j-1) }`. -/
def insertInner (arr : Array cacheEntry) : Nat → Array cacheEntry
  | 0 => arr
  | j + 1 =>
    if lessGo arr (j + 1) j then insertInner (swapGo arr (j + 1) j) j else arr

/-- The outer loop of `sort.insertionSort`, `i` ranging over
`[1, size)`. -/
def insertLoop : Nat → Array cacheEntry → Nat → Array cacheEntry
  | 0, arr, _ => arr
  | f + 1, arr, i =>
    if i < arr.size then insertLoop f (insertInner arr i) (i + 1) else arr

/-- Go's `sort.Sort` as executed for slices of at most 12 elements (the
`LoadCache` sort phase; `quickSort` immediately falls through to one
Shell pass with gap 6 followed by an insertion sort, and the gap-6 pass
is vacuous below 7 elements). -/
def sortGo (es : List cacheEntry) : List cacheEntry :=
  let arr := es.toArray
  let shell := (List.range arr.size).foldl
    (fun a i =>
      if 6 ≤ i then (if lessGo a i (i - 6) then swapGo a i (i - 6) else a)
      else a) arr
  (insertLoop shell.size shell 1).toList

/-- `LoadCache`, from the raw bytes of `/etc/ld.so.cache` (the file read
and `IsSupported`/`getOsVersion` host queries are abstracted into the
`ourOsVersion` and `validClass` parameters): legacy header, new-format
magic and header, record array, string table, entry filter, and the
per-key sort of multi-entry keys. -/
def loadCacheParse (fileBytes : List Nat) (ourOsVersion : Nat)
    (validClass : List Nat → Bool) :
    Except LoadErr (List (List Nat × List cacheEntry)) :=
  match getNewLdCache fileBytes with
  | .error e => .error e
  | .ok (b0, _) =>
    let stringTable := b0
    if newCacheMagic.isPrefixOf b0 then
      let b1 := b0.drop 20
      if b1.length < 2 * 4 + 5 * 4 then
        .error (.goError "dynlib: ld.so.cache truncated (new header)")
      else
        let nlibs := le32 (b1.take 4)
        let b2 := b1.drop 4
        let lenStrings := le32 (b2.take 4)
        let b3 := b2.drop (4 + 20)
        if nlibs * 24 > b3.length then
          -- `rawLibs := b[:nlibs*entrySz]` / `b = b[len(rawLibs):]`:
          -- one of the two slice expressions is out of range.
          .error (.goPanic "slice bounds out of range (rawLibs)")
        else
          let rawLibs := b3.take (nlibs * 24)
          let b4 := b3.drop (nlibs * 24)
          if b4.length ≠ lenStrings then
            .error (.goError "dynlib: lenStrings appears invalid")
          else
            match parseEntries stringTable ourOsVersion validClass nlibs rawLibs [] with
            | .error e => .error e
            | .ok store =>
              .ok (store.map (fun kv =>
                if kv.2.length = 1 then kv else (kv.1, sortGo kv.2)))
    else .error (.goError "dynlib: ld.so.cache has invalid new_magic")

/-- Little-endian byte encoding of a 32-bit value (test vector helper). -/
def le32Bytes (v : Nat) : List Nat :=
  [v % 256, v / 256 % 256, v / 65536 % 256, v / 16777216 % 256]

/-- A concrete loader-cache file: legacy header with zero legacy
records, then a new-format region holding two accepted records for the
same SONAME `libA.so` — discovery order `(hwcap 1, os_version 0)` then
`(hwcap 0, os_version 1)`. -/
def c5CacheFile : List Nat :=
  oldCacheMagic ++ le32Bytes 0 ++
    (newCacheMagic ++ le32Bytes 2 ++ le32Bytes 14 ++ List.replicate 20 0 ++
      (le32Bytes 0x303 ++ le32Bytes 96 ++ le32Bytes 104 ++ le32Bytes 0 ++
        le32Bytes 1 ++ le32Bytes 0) ++
      (le32Bytes 0x303 ++ le32Bytes 96 ++ le32Bytes 107 ++ le32Bytes 1 ++
        le32Bytes 0 ++ le32Bytes 0) ++
      (asciiBytes "libA.so" ++ [0] ++ asciiBytes "/a" ++ [0] ++
        asciiBytes "/b" ++ [0]))

/-- A concrete truncated loader-cache file: a well-formed legacy header
and new-format fixed header declaring `nlibs = 1`, but no record
array. -/
def c6TruncatedFile : List Nat :=
  oldCacheMagic ++ le32Bytes 0 ++
    (newCacheMagic ++ le32Bytes 1 ++ le32Bytes 0 ++ List.replicate 20 0)

/-! ## Dependency resolver (`Cache.ResolveLibraries`, `cache.go`) -/

/-- The host filesystem as seen by the resolver: `imports` is
`getLibraries` (the DT_NEEDED list of the ELF file at a path, `none` on
read failure), `fexists` is `FileExists`, and `real` is
`filepath.EvalSymlinks`. -/
structure FileSys where
  imports : String → Option (List String)
  fexists : String → Bool
  real : String → Option String

/-- `filepath.Join` for the clean `dir`/`file` shapes the resolver
uses. -/
def joinPath (d l : String) : String := d ++ "/" ++ l

/-- The parameters of one `ResolveLibraries` call: the filesystem, the
cache lookup (`Cache.GetLibraryPath`: first entry's path, or `""` when
the SONAME is absent), the `LD_LIBRARY_PATH` search list, the fallback
search list, and the filter (`true` = accept). -/
structure RCfg where
  fs : FileSys
  gcache : String → String
  searchPaths : List String
  fallbackPaths : List String
  filter : String → Bool

/-- The `isInPath` closure: the first directory in which the library
exists wins. -/
def isInPath (fs : FileSys) (l : String) : List String → Option String
  | [] => none
  | d :: t =>
    let maybePath := joinPath d l
    if fs.fexists maybePath then some maybePath else isInPath fs l t

/-- The library lookup sequence of the inner loop: `LD_LIBRARY_PATH`
first (flagged `true`), then the cache, then the fallback path; `none`
is the `Failed to find library` case. -/
def resolveLib (cfg : RCfg) (lib : String) : Option (String × Bool) :=
  match isInPath cfg.fs lib cfg.searchPaths with
  | some p => some (p, true)
  | none =>
    let cp := cfg.gcache lib
    if cp ≠ "" then some (cp, false)
    else
      match isInPath cfg.fs lib cfg.fallbackPaths with
      | some p => some (p, false)
      | none => none

/-- The mutable state of `ResolveLibraries`' breadth-first iteration:
`libraries` (SONAME → path, insertion-ordered association list standing
for the Go map), `checkedFile`, `checkedLib` (set membership),
`newToCheck` (the next batch, deduplicated as the Go map keys are), and
the not-yet-merged `extraLibs`. -/
structure RState where
  libraries : List (String × String)
  checkedFile : List String
  checkedLib : List String
  newToCheck : List String
  pendingExtras : Option (List String)

/-- Set-semantics insertion for the lists standing for Go maps. -/
def insertOnce (l : List String) (x : String) : List String :=
  if x ∈ l then l else l ++ [x]

/-- The body of the inner `for _, lib := range impLibs` loop: skip
already-checked SONAMEs; resolve; record in `libraries` unless the hit
came from `LD_LIBRARY_PATH`; mark checked; queue the path for traversal
unless already visited. -/
def processLib (cfg : RCfg) (st : RState) (lib : String) :
    Except String RState :=
  if lib ∈ st.checkedLib then .ok st
  else
    match resolveLib cfg lib with
    | none => .error "dynlib: Failed to find library"
    | some (libPath, inLdLibraryPath) =>
      .ok { st with
        libraries :=
          if inLdLibraryPath then st.libraries
          else st.libraries ++ [(lib, libPath)],
        checkedLib := st.checkedLib ++ [lib],
        newToCheck :=
          if libPath ∈ st.checkedFile then st.newToCheck
          else insertOnce st.newToCheck libPath }

/-- Fold `processLib` over an import list. -/
def processLibs (cfg : RCfg) : RState → List String → Except String RState
  | st, [] => .ok st
  | st, lib :: t =>
    match processLib cfg st lib with
    | .error e => .error e
    | .ok st2 => processLibs cfg st2 t

/-- The body of the `for _, fn := range toCheck` loop: run the filter,
read the file's imports, mark the file checked, merge `extraLibs` into
the first processed file, and resolve every import. -/
def processFile (cfg : RCfg) (st : RState) (fn : String) :
    Except String RState :=
  if ¬ cfg.filter fn then .error "dynlib: rejected by filter"
  else
    match cfg.fs.imports fn with
    | none => .error "dynlib: getLibraries failed"
    | some impLibs =>
      let st1 := { st with checkedFile := insertOnce st.checkedFile fn }
      match st1.pendingExtras with
      | some extras =>
        processLibs cfg { st1 with pendingExtras := none } (impLibs ++ extras)
      | none => processLibs cfg st1 impLibs

/-- Fold `processFile` over one batch. -/
def processBatch (cfg : RCfg) : RState → List String → Except String RState
  | st, [] => .ok st
  | st, fn :: t =>
    match processFile cfg st fn with
    | .error e => .error e
    | .ok st2 => processBatch cfg st2 t

/-- The outer fixed-point loop: process batches until `toCheck` is
empty, collecting the next batch in `newToCheck` (reset at each
round).  Fuel-indexed; the Go loop terminates because the filesystem is
finite. -/
def resolveLoop (cfg : RCfg) : Nat → RState → List String →
    Except String RState
  | 0, _, _ => .error "model: out of fuel"
  | fuel + 1, st, toCheck =>
    if toCheck.isEmpty then .ok st
    else
      match processBatch cfg { st with newToCheck := [] } toCheck with
      | .error e => .error e
      | .ok st2 => resolveLoop cfg fuel st2 st2.newToCheck

/-- `ret[f] = append(ret[f], lib)` on the alias map. -/
def addAlias : List (String × List String) → String → String →
    List (String × List String)
  | [], f, lib => [(f, [lib])]
  | (k, v) :: t, f, lib =>
    if k = f then (k, v ++ [lib]) :: t else (k, v) :: addAlias t f lib

/-- The de-duplication pass: canonicalize every registered path through
`EvalSymlinks` and group the SONAMEs by canonical path. -/
def finalize (fs : FileSys) : List (String × String) →
    List (String × List String) → Except String (List (String × List String))
  | [], ret => .ok ret
  | (lib, fn) :: t, ret =>
    match fs.real fn with
    | none => .error "dynlib: EvalSymlinks failed"
    | some f => finalize fs t (addAlias ret f lib)

/-- `Cache.ResolveLibraries`: breadth-first closure then
canonicalization. -/
def resolveLibraries (cfg : RCfg) (binaries : List String)
    (extraLibs : Option (List String)) (fuel : Nat) :
    Except String (List (String × List String)) :=
  match resolveLoop cfg fuel ⟨[], [], [], [], extraLibs⟩ binaries with
  | .error e => .error e
  | .ok st => finalize cfg.fs st.libraries []

/-- A concrete resolver configuration refuting import-closure: binary
`B` imports `libA.so`, found through the cache at `/a/libA.so`, which in
turn imports `libS.so`, found only through the primary
(`LD_LIBRARY_PATH`) search path at `/p/libS.so`. -/
def c7Cfg : RCfg :=
  { fs :=
      { imports := fun p =>
          if p = "B" then some ["libA.so"]
          else if p = "/a/libA.so" then some ["libS.so"]
          else if p = "/p/libS.so" then some []
          else none
        fexists := fun p => p = "/p/libS.so"
        real := fun p => some p }
    gcache := fun l => if l = "libA.so" then "/a/libA.so" else ""
    searchPaths := ["/p"]
    fallbackPaths := []
    filter := fun _ => true }

/-- Componentwise growth of the resolver state. -/
def MonoSt (a b : RState) : Prop :=
  a.libraries ⊆ b.libraries ∧ a.checkedFile ⊆ b.checkedFile ∧
    a.checkedLib ⊆ b.checkedLib ∧ a.newToCheck ⊆ b.newToCheck

/-- Every registered SONAME has been marked checked. -/
def INVlib (st : RState) : Prop :=
  ∀ l p, (l, p) ∈ st.libraries → l ∈ st.checkedLib

/-- Every checked SONAME either resolves through the primary search path
or is registered in `libraries`. -/
def INVchk (cfg : RCfg) (st : RState) : Prop :=
  ∀ s ∈ st.checkedLib,
    (isInPath cfg.fs s cfg.searchPaths).isSome ∨ ∃ p, (s, p) ∈ st.libraries

/-- Every checked file was readable and has all of its imports marked
checked. -/
def INVfile (cfg : RCfg) (st : RState) : Prop :=
  ∀ fn ∈ st.checkedFile,
    ∃ L, cfg.fs.imports fn = some L ∧ ∀ s ∈ L, s ∈ st.checkedLib

/-- New `libraries` entries since `a` point at visited or queued
files. -/
def OriginRel (a b : RState) : Prop :=
  ∀ l p, (l, p) ∈ b.libraries →
    (l, p) ∈ a.libraries ∨ p ∈ b.checkedFile ∨ p ∈ b.newToCheck

/-! # Theorems -/

theorem readN_eq_some {n : Nat} {s taken rest : List Nat}
    (h : readN n s = some (taken, rest)) :
    taken = s.take n ∧ rest = s.drop n ∧ n ≤ s.length := by
  unfold readN at h
  by_cases hc : n ≤ s.length
  · simp [hc] at h
    exact ⟨h.1.symm, h.2.symm, hc⟩
  · simp [hc] at h

theorem readN_length {n : Nat} {s taken rest : List Nat}
    (h : readN n s = some (taken, rest)) : taken.length = n := by
  obtain ⟨ht, _, hn⟩ := readN_eq_some h
  subst ht
  simpa using hn

theorem hexEncodeBytes_length (bs : List Nat) :
    (hexEncodeBytes bs).length = 2 * bs.length := by
  induction bs with
  | nil => rfl
  | cons b t ih =>
    simp [hexEncodeBytes] at ih ⊢
    omega

theorem hexEncodeBytes_lowerHex (bs : List Nat) :
    ∀ c ∈ hexEncodeBytes bs, isLowerHexByte c := by
  intro c hc
  simp only [hexEncodeBytes, List.mem_flatMap] at hc
  obtain ⟨b, _, hc⟩ := hc
  have hdig : ∀ n, n < 16 → isLowerHexByte (hexDigitByte n) := by
    intro n hn
    unfold hexDigitByte isLowerHexByte
    by_cases h10 : n < 10 <;> simp [h10] <;> omega
  simp only [List.mem_cons, List.not_mem_nil, or_false] at hc
  rcases hc with h | h <;> subst h
  · exact hdig _ (Nat.mod_lt _ (by norm_num))
  · exact hdig _ (Nat.mod_lt _ (by norm_num))

/-- C1: the SOCKS surrogate's tag rewrite.  With the current tag generated
by `newTag` from 16 random bytes: (a) when the captured username is
present and the rewritten password fits in 255 bytes, the request
re-dispatched upstream carries exactly
`original_passwd ++ ":sandboxed-tor-browser:" ++ hex32` where `hex32` is
32 lowercase hex characters; (b) when the username is absent the request
fails and nothing is re-dispatched; (c) when the rewritten password
exceeds 255 bytes the request fails with `GeneralFailure` and nothing is
re-dispatched. -/
theorem socks_rewrite_tag_correct (b passwd : List Nat)
    (hlen : b.length = 16) :
    ((∀ u, passwd.length + 55 ≤ 255 →
        ∃ hex32,
          handleConn (newTag b) ⟨some u, passwd⟩ =
            .dispatched ⟨some u,
              passwd ++ asciiBytes ":sandboxed-tor-browser:" ++ hex32⟩ ∧
          hex32.length = 32 ∧ ∀ c ∈ hex32, isLowerHexByte c) ∧
      handleConn (newTag b) ⟨none, passwd⟩ =
        .failedReply replyGeneralFailure) ∧
    (∀ u, 255 < passwd.length + 55 →
      handleConn (newTag b) ⟨some u, passwd⟩ =
        .failedReply replyGeneralFailure) := by
  have htag : getTag (newTag b) =
      asciiBytes ":sandboxed-tor-browser:" ++ hexEncodeBytes b := by
    simp [getTag, newTag, asciiBytes]
  have htaglen : (getTag (newTag b)).length = 55 := by
    rw [htag]
    have := hexEncodeBytes_length b
    simp [asciiBytes, this, hlen]
  have hA : (asciiBytes ":sandboxed-tor-browser:").length = 23 := rfl
  have hB : (hexEncodeBytes b).length = 32 := by rw [hexEncodeBytes_length, hlen]
  refine ⟨⟨?_, ?_⟩, ?_⟩
  · intro u hfit
    refine ⟨hexEncodeBytes b, ?_, hB, hexEncodeBytes_lowerHex b⟩
    have hcond : ¬ (255 < passwd.length + 55) := by omega
    simp [handleConn, rewriteTag, htag, hA, hB, hcond]
  · simp [handleConn, rewriteTag]
  · intro u hbig
    have hcond : 255 < passwd.length + 55 := by omega
    simp [handleConn, rewriteTag, htag, hA, hB, hcond]

/-- C1 witness: concrete evaluation at a 16-byte tag seed and a short
password, plus the overlong-password branch at a concrete input. -/
theorem socks_rewrite_tag_correct_witness :
    ∃ hex32,
      handleConn (newTag (List.replicate 16 171)) ⟨some [120], [121]⟩ =
        .dispatched ⟨some [120],
          [121] ++ asciiBytes ":sandboxed-tor-browser:" ++ hex32⟩ ∧
      hex32.length = 32 ∧ ∀ c ∈ hex32, isLowerHexByte c := by
  have h := socks_rewrite_tag_correct (List.replicate 16 171) [121] (by decide)
  exact h.1.1 [120] (by decide)

/-- C9: the SOCKS5 username/password authenticator fails — writing the
failure status `[0x01, 0x01]` to the client and returning an error — on
every authentication message whose declared username length or declared
password length is zero, and captures `Auth.Uname`/`Auth.Passwd` only on
success, in which case both are non-empty (so a non-nil `Auth.Uname` is
never empty). -/
theorem socks_auth_rejects_empty (input : List Nat) :
    ((∀ v rest, input = v :: 0 :: rest →
        authRFC1929 input = ([1, 1], .error "username with 0 length") ∨
        authRFC1929 input = ([1, 1], .error "auth version mismatch")) ∧
      (∀ ulen uname rest, input = 1 :: ulen :: (uname ++ 0 :: rest) →
        1 ≤ ulen → uname.length = ulen →
        authRFC1929 input = ([1, 1], .error "password with 0 length"))) ∧
    (∀ u p, (authRFC1929 input).2 = .ok (u, p) →
      (authRFC1929 input).1 = [1, 0] ∧ u ≠ [] ∧ p ≠ []) := by
  constructor
  · constructor
    · rintro v rest rfl
      by_cases hv : v = 1
      · subst hv
        left
        simp [authRFC1929]
      · right
        simp [authRFC1929, hv]
    · rintro ulen uname rest rfl h1 hlen
      have hread : readN ulen (uname ++ 0 :: rest) = some (uname, 0 :: rest) := by
        unfold readN
        have hle : ulen ≤ (uname ++ 0 :: rest).length := by
          simp
          omega
        simp only [hle, if_pos]
        rw [← hlen]
        simp
      have hne : ¬ ulen < 1 := by omega
      simp [authRFC1929, hne, hread]
  · intro u p hok
    unfold authRFC1929 at hok ⊢
    match hi : input with
    | [] => simp at hok
    | v :: rest =>
      dsimp only at hok ⊢
      by_cases hv : v ≠ 1
      · rw [if_pos hv] at hok
        simp at hok
      · rw [if_neg hv] at hok ⊢
        match rest with
        | [] => simp at hok
        | ulen :: rest2 =>
          dsimp only at hok ⊢
          by_cases hu : ulen < 1
          · rw [if_pos hu] at hok
            simp at hok
          · rw [if_neg hu] at hok ⊢
            match hr : readN ulen rest2 with
            | none =>
              rw [hr] at hok
              simp at hok
            | some (uname, rest3) =>
              rw [hr] at hok
              dsimp only at hok ⊢
              match rest3 with
              | [] => simp at hok
              | plen :: rest4 =>
                dsimp only at hok ⊢
                by_cases hp : plen < 1
                · rw [if_pos hp] at hok
                  simp at hok
                · rw [if_neg hp] at hok ⊢
                  match hr2 : readN plen rest4 with
                  | none =>
                    rw [hr2] at hok
                    simp at hok
                  | some (passwd, rest5) =>
                    rw [hr2] at hok
                    dsimp only at hok ⊢
                    simp only [Except.ok.injEq, Prod.mk.injEq] at hok
                    obtain ⟨hu2, hp2⟩ := hok
                    subst hu2
                    subst hp2
                    have l1 := readN_length hr
                    have l2 := readN_length hr2
                    refine ⟨rfl, ?_, ?_⟩
                    · intro hnil
                      rw [hnil] at l1
                      simp at l1
                      omega
                    · intro hnil
                      rw [hnil] at l2
                      simp at l2
                      omega

/-- C9 witness: a message with declared password length zero is rejected
with the failure status, and a well-formed message succeeds with
non-empty captured credentials. -/
theorem socks_auth_rejects_empty_witness :
    authRFC1929 [1, 1, 120, 0] = ([1, 1], .error "password with 0 length") ∧
    (authRFC1929 [1, 1, 120, 1, 121]).1 = [1, 0] := by
  constructor
  · exact ((socks_auth_rejects_empty [1, 1, 120, 0]).1.2 1 [120] []
      (by decide) (by decide) (by decide))
  · exact ((socks_auth_rejects_empty [1, 1, 120, 1, 121]).2 [120] [121]
      (by rfl)).1

theorem readN_getD {n : Nat} {s t r : List Nat} (h : readN n s = some (t, r))
    {i : Nat} (hi : i < n) : t.getD i 0 = s.getD i 0 := by
  obtain ⟨ht, _, _⟩ := readN_eq_some h
  subst ht
  simp [List.getD_eq_getElem?_getD, List.getElem?_take, hi]

theorem bo16_boPut16 (bo : ByteOrder) (v : Nat) :
    bo16 bo ((boPut16 bo v).getD 0 0) ((boPut16 bo v).getD 1 0) = v % 65536 := by
  cases bo <;> simp [bo16, boPut16] <;> omega

theorem consumeClientRequest_reqSeq
    (allowNames : List (List Nat)) (extOps : List Nat)
    (st : surrogateState) (input : List Nat) (r : clientReqResult)
    (h : consumeClientRequest allowNames extOps st input = .ok r) :
    r.st.reqSeq = (st.reqSeq + 1) % 65536 := by
  unfold consumeClientRequest at h
  cases hh : readRequestHeader st.byteOrder input with
  | none => rw [hh] at h; simp at h
  | some v =>
    obtain ⟨hdrBytes, hdrLen, lenUnits, rest1⟩ := v
    rw [hh] at h
    dsimp only at h
    repeat' split at h
    all_goals cases h
    all_goals rfl

theorem runClientRequests_reqSeq
    (allowNames : List (List Nat)) (extOps : List Nat) :
    ∀ (n : Nat) (st : surrogateState) (input : List Nat)
      (st2 : surrogateState),
      runClientRequests allowNames extOps n st input = .ok st2 →
      st2.reqSeq = (st.reqSeq + n) % 65536 ∨
        (st2.reqSeq = st.reqSeq ∧ n = 0) := by
  intro n
  induction n with
  | zero =>
    intro st input st2 h
    simp [runClientRequests] at h
    right
    exact ⟨by rw [h], rfl⟩
  | succ m ih =>
    intro st input st2 h
    left
    unfold runClientRequests at h
    cases hc : consumeClientRequest allowNames extOps st input with
    | error e => rw [hc] at h; simp at h
    | ok r =>
      rw [hc] at h
      have h1 := consumeClientRequest_reqSeq allowNames extOps st input r hc
      have h2 := ih r.st r.rest st2 h
      rcases h2 with h2 | ⟨h2, hm⟩
      · rw [h2, h1]
        omega
      · rw [h2, h1, hm]

/-- C4: `req_seq` starts at 1 (`newSurrogateInstance`) and is bumped by
exactly one, modulo 2^16, by every successfully processed client
request — on the forward path, the `QueryExtension` rewrite-scheduling
path and the rejection path alike — so after `N` processed requests it
equals `1 + N (mod 2^16)`. -/
theorem x11_reqseq_counts_requests
    (allowNames : List (List Nat)) (extOps : List Nat) :
    (∀ (st : surrogateState) (input : List Nat) (r : clientReqResult),
      consumeClientRequest allowNames extOps st input = .ok r →
      r.st.reqSeq = (st.reqSeq + 1) % 65536) ∧
    (∀ (bo : ByteOrder) (n : Nat) (input : List Nat) (st2 : surrogateState),
      runClientRequests allowNames extOps n (newSurrogateState bo) input = .ok st2 →
      st2.reqSeq = (1 + n) % 65536) := by
  constructor
  · exact fun st input r h =>
      consumeClientRequest_reqSeq allowNames extOps st input r h
  · intro bo n input st2 h
    have := runClientRequests_reqSeq allowNames extOps n
      (newSurrogateState bo) input st2 h
    rcases this with h2 | ⟨h2, hn⟩
    · simpa [newSurrogateState] using h2
    · rw [h2, hn]
      rfl

/-- C4 witness: two concrete requests (a 4-byte NoOperation-style
request twice) processed from the initial state leave `req_seq = 3`. -/
theorem x11_reqseq_counts_requests_witness :
    (runClientRequests [] [] 2 (newSurrogateState .le)
        [127, 0, 1, 0, 127, 0, 1, 0] = .ok ⟨.le, 3, []⟩) ∧
    (3 : Nat) = (1 + 2) % 65536 := by
  constructor
  · rfl
  · exact (x11_reqseq_counts_requests [] []).2 .le 2 [127, 0, 1, 0, 127, 0, 1, 0]
      ⟨.le, 3, []⟩ (by rfl)

theorem readN_append {k : Nat} {a b : List Nat} (h : a.length = k) :
    readN k (a ++ b) = some (a, b) := by
  unfold readN
  have hle : k ≤ (a ++ b).length := by
    simp [← h]
  rw [if_pos hle, List.take_left' h, List.drop_left' h]

theorem boPut16_length (bo : ByteOrder) (v : Nat) : (boPut16 bo v).length = 2 := by
  cases bo <;> rfl

theorem readRequestHeader_getD0 {bo : ByteOrder} {input hdrBytes : List Nat}
    {hdrLen lenUnits : Nat} {rest1 : List Nat}
    (h : readRequestHeader bo input = some (hdrBytes, hdrLen, lenUnits, rest1)) :
    hdrBytes.getD 0 0 = input.getD 0 0 := by
  unfold readRequestHeader at h
  cases hr : readN 4 input with
  | none => rw [hr] at h; simp at h
  | some p =>
    obtain ⟨hdr0, rest0⟩ := p
    rw [hr] at h
    have h0 : hdr0.getD 0 0 = input.getD 0 0 := readN_getD hr (by omega)
    have hlen0 : hdr0.length = 4 := readN_length hr
    dsimp only at h
    split at h
    · cases hr2 : readN 4 rest0 with
      | none => rw [hr2] at h; simp at h
      | some p2 =>
        obtain ⟨hdr1, rest2⟩ := p2
        rw [hr2] at h
        dsimp only at h
        injection h with h2
        obtain ⟨rfl, -⟩ := Prod.mk.injEq .. ▸ h2
        rw [← h0]
        rcases hdr0 with - | ⟨x, t⟩
        · simp at hlen0
        · rfl
    · injection h with h2
      obtain ⟨rfl, -⟩ := Prod.mk.injEq .. ▸ h2
      exact h0

theorem injectRequestErrorBody_props (bo : ByteOrder) (seq op : Nat)
    (h : seq < 65536) :
    (injectRequestErrorBody bo seq op).length = 32 ∧
    (injectRequestErrorBody bo seq op).getD 0 0 = 0 ∧
    (injectRequestErrorBody bo seq op).getD 1 0 = 1 ∧
    bo16 bo ((injectRequestErrorBody bo seq op).getD 2 0)
      ((injectRequestErrorBody bo seq op).getD 3 0) = seq ∧
    (injectRequestErrorBody bo seq op).getD 10 0 = op := by
  cases bo <;>
    simp [injectRequestErrorBody, boPut16, bo16] <;>
    omega

theorem noOperationRequest_props (bo : ByteOrder) :
    (noOperationRequest bo).length = 4 ∧
    (noOperationRequest bo).getD 0 0 = 127 ∧
    bo16 bo ((noOperationRequest bo).getD 2 0)
      ((noOperationRequest bo).getD 3 0) = 1 := by
  cases bo <;> simp [noOperationRequest, boPut16, bo16]

/-- C2: a client request whose opcode is at least 128 and not in the
recorded extension-opcode table is rejected in-band: the client receives
the synthetic 32-byte Error reply (`resp_type = 0`, `code = 1` Request,
sequence number = the current `req_seq`, `major_opcode` = the request's
opcode), the server receives a `NoOperation` request (opcode 127, length
field 1) in place of the request, and the request body is discarded —
only the 4-byte NoOperation reaches the server. -/
theorem x11_prohibited_extension_request
    (allowNames : List (List Nat)) (extOps : List Nat)
    (st : surrogateState) (input : List Nat) (r : clientReqResult)
    (hok : consumeClientRequest allowNames extOps st input = .ok r)
    (hop : 128 ≤ input.getD 0 0) (hnot : ¬ input.getD 0 0 ∈ extOps)
    (hseq : st.reqSeq < 65536) :
    r.toClient = injectRequestErrorBody st.byteOrder st.reqSeq (input.getD 0 0) ∧
    r.toServer = noOperationRequest st.byteOrder ∧
    r.st = { st with reqSeq := (st.reqSeq + 1) % 65536 } ∧
    r.toClient.length = 32 ∧
    r.toClient.getD 0 0 = 0 ∧
    r.toClient.getD 1 0 = 1 ∧
    bo16 st.byteOrder (r.toClient.getD 2 0) (r.toClient.getD 3 0) = st.reqSeq ∧
    r.toClient.getD 10 0 = input.getD 0 0 ∧
    r.toServer.length = 4 ∧
    r.toServer.getD 0 0 = 127 ∧
    bo16 st.byteOrder (r.toServer.getD 2 0) (r.toServer.getD 3 0) = 1 := by
  unfold consumeClientRequest at hok
  cases hh : readRequestHeader st.byteOrder input with
  | none => rw [hh] at hok; simp at hok
  | some v =>
    obtain ⟨hdrBytes, hdrLen, lenUnits, rest1⟩ := v
    rw [hh] at hok
    dsimp only at hok
    have h0 : hdrBytes.getD 0 0 = input.getD 0 0 := readRequestHeader_getD0 hh
    by_cases hlen : lenUnits * 4 < hdrLen
    · rw [if_pos hlen] at hok
      simp at hok
    · rw [if_neg hlen] at hok
      have h98 : ¬ (hdrBytes.getD 0 0 = 98) := by
        rw [h0]
        omega
      rw [if_neg h98] at hok
      have hcond : 128 ≤ hdrBytes.getD 0 0 ∧ ¬ hdrBytes.getD 0 0 ∈ extOps := by
        rw [h0]
        exact ⟨hop, hnot⟩
      rw [if_pos hcond] at hok
      cases hb : readN (lenUnits * 4 - hdrLen) rest1 with
      | none => rw [hb] at hok; simp at hok
      | some p =>
        obtain ⟨body, rest2⟩ := p
        rw [hb] at hok
        dsimp only at hok
        injection hok with h2
        subst h2
        obtain ⟨e1, e2, e3, e4, e5⟩ :=
          injectRequestErrorBody_props st.byteOrder st.reqSeq (input.getD 0 0) hseq
        obtain ⟨n1, n2, n3⟩ := noOperationRequest_props st.byteOrder
        exact ⟨by rw [h0], rfl, rfl, by rw [h0]; exact e1, by rw [h0]; exact e2,
          by rw [h0]; exact e3, by rw [h0]; exact e4, by rw [h0]; exact e5,
          n1, n2, n3⟩

/-- C2 witness: a concrete opcode-200 request with an empty opcode
table, in little-endian byte order, from the initial state. -/
theorem x11_prohibited_extension_request_witness :
    128 ≤ ([200, 0, 1, 0] : List Nat).getD 0 0 ∧
    (consumeClientRequest [] [] (newSurrogateState .le) [200, 0, 1, 0] =
      .ok ⟨⟨.le, 2, []⟩, [127, 0, 1, 0],
        injectRequestErrorBody .le 1 200, []⟩) ∧
    injectRequestErrorBody .le 1 200 =
      [0, 1, 1, 0, 0, 0, 0, 0, 0, 0, 200, 0, 0, 0, 0, 0, 0, 0, 0, 0, 0,
        0, 0, 0, 0, 0, 0, 0, 0, 0, 0, 0] ∧
    ([127, 0, 1, 0] : List Nat) = noOperationRequest .le := by
  refine ⟨by decide, ?_, by decide, by decide⟩
  have h := x11_prohibited_extension_request [] [] (newSurrogateState .le)
    [200, 0, 1, 0] ⟨⟨.le, 2, []⟩, [127, 0, 1, 0],
      injectRequestErrorBody .le 1 200, []⟩ (by rfl) (by decide) (by decide)
    (by decide)
  rfl

theorem readRequestHeader_std (bo : ByteOrder) (op detail lenUnits : Nat)
    (tail : List Nat) (h1 : lenUnits ≠ 0) (h2 : lenUnits < 65536) :
    readRequestHeader bo (([op, detail] ++ boPut16 bo lenUnits) ++ tail) =
      some ([op, detail] ++ boPut16 bo lenUnits, 4, lenUnits, tail) := by
  have hlen : ([op, detail] ++ boPut16 bo lenUnits).length = 4 := by
    simp [boPut16_length]
  unfold readRequestHeader
  rw [readN_append hlen]
  dsimp only
  have hg2 : ([op, detail] ++ boPut16 bo lenUnits).getD 2 0 =
      (boPut16 bo lenUnits).getD 0 0 := by
    cases bo <;> rfl
  have hg3 : ([op, detail] ++ boPut16 bo lenUnits).getD 3 0 =
      (boPut16 bo lenUnits).getD 1 0 := by
    cases bo <;> rfl
  rw [hg2, hg3, bo16_boPut16, Nat.mod_eq_of_lt h2, if_neg h1]

theorem queryExtensionRewriteBody_props (bo : ByteOrder) (seq : Nat)
    (h : seq < 65536) :
    (queryExtensionRewriteBody bo seq).length = 32 ∧
    (queryExtensionRewriteBody bo seq).getD 0 0 = 1 ∧
    bo16 bo ((queryExtensionRewriteBody bo seq).getD 2 0)
      ((queryExtensionRewriteBody bo seq).getD 3 0) = seq ∧
    (queryExtensionRewriteBody bo seq).getD 4 0 = 0 ∧
    (queryExtensionRewriteBody bo seq).getD 5 0 = 0 ∧
    (queryExtensionRewriteBody bo seq).getD 6 0 = 0 ∧
    (queryExtensionRewriteBody bo seq).getD 7 0 = 0 ∧
    (queryExtensionRewriteBody bo seq).getD 8 0 = 0 ∧
    (queryExtensionRewriteBody bo seq).getD 9 0 = 0 ∧
    (queryExtensionRewriteBody bo seq).getD 10 0 = 0 ∧
    (queryExtensionRewriteBody bo seq).getD 11 0 = 0 := by
  cases bo <;>
    simp [queryExtensionRewriteBody, boPut16, bo16] <;>
    omega

/-- C3: a `QueryExtension` request (opcode 98) naming an extension that
is not in the allow-list is forwarded to the server unchanged while a
rewrite tagged with the current `req_seq` is appended to the queue; and
when a server Reply (`resp_type = 1`) bearing the queued sequence number
later passes server→client, the server's reply is discarded and the
queued 32-byte body — `resp_type = 1`, the same sequence number,
`present = 0`, `major_opcode = 0`, `first_event = 0`, `first_error = 0`
— is delivered instead. -/
theorem x11_queryextension_unlisted
    (allowNames : List (List Nat)) (extOps : List Nat) (bo : ByteOrder)
    (seq : Nat) (q : List replyRewrite) (hseq : seq < 65536) :
    (∀ (detail lenUnits : Nat) (body restIn : List Nat),
      lenUnits ≠ 0 → lenUnits < 65536 →
      body.length = lenUnits * 4 - 4 →
      4 + bo16 bo (body.getD 0 0) (body.getD 1 0) ≤ body.length →
      ¬ (body.drop 4).take (bo16 bo (body.getD 0 0) (body.getD 1 0)) ∈ allowNames →
      consumeClientRequest allowNames extOps ⟨bo, seq, q⟩
          (([98, detail] ++ boPut16 bo lenUnits) ++ (body ++ restIn)) =
        .ok ⟨⟨bo, (seq + 1) % 65536,
            q ++ [⟨seq, queryExtensionRewriteBody bo seq,
              "QueryExtension rejection"⟩]⟩,
          ([98, detail] ++ boPut16 bo lenUnits) ++ body, [], restIn⟩) ∧
    (∀ (seq2 : Nat) (body32 : List Nat) (d : String) (qtl : List replyRewrite)
      (shdr sbody srest : List Nat),
      shdr.length = 32 →
      shdr.getD 0 0 = 1 →
      bo16 bo (shdr.getD 2 0) (shdr.getD 3 0) = seq →
      sbody.length = (bo32 bo (shdr.getD 4 0) (shdr.getD 5 0) (shdr.getD 6 0)
        (shdr.getD 7 0)) * 4 →
      consumeServerReply ⟨bo, seq2, ⟨seq, body32, d⟩ :: qtl⟩
          (shdr ++ (sbody ++ srest)) =
        .ok ⟨⟨bo, seq2, qtl⟩, body32, srest⟩) ∧
    ((queryExtensionRewriteBody bo seq).length = 32 ∧
      (queryExtensionRewriteBody bo seq).getD 0 0 = 1 ∧
      bo16 bo ((queryExtensionRewriteBody bo seq).getD 2 0)
        ((queryExtensionRewriteBody bo seq).getD 3 0) = seq ∧
      (queryExtensionRewriteBody bo seq).getD 8 0 = 0 ∧
      (queryExtensionRewriteBody bo seq).getD 9 0 = 0 ∧
      (queryExtensionRewriteBody bo seq).getD 10 0 = 0 ∧
      (queryExtensionRewriteBody bo seq).getD 11 0 = 0) := by
  refine ⟨?_, ?_, ?_⟩
  · intro detail lenUnits body restIn h1 h2 hbody hn4 hname
    unfold consumeClientRequest
    have hbo : (⟨bo, seq, q⟩ : surrogateState).byteOrder = bo := rfl
    rw [hbo, readRequestHeader_std bo 98 detail lenUnits (body ++ restIn) h1 h2]
    dsimp only
    rw [if_neg (by omega)]
    rw [if_pos (show ([98, detail] ++ boPut16 bo lenUnits).getD 0 0 = 98 from rfl)]
    rw [readN_append hbody]
    dsimp only
    rw [if_neg (by omega), if_neg (by omega), if_neg hname]
  · intro seq2 body32 d qtl shdr sbody srest hhdr ht hseqm hlen
    unfold consumeServerReply
    rw [readN_append hhdr]
    dsimp only
    rw [ht, hseqm]
    rw [if_pos (show (1 : Nat) = 1 ∨ (1 : Nat) = 35 from Or.inl rfl)]
    rw [if_pos (rfl : seq = seq)]
    rw [if_pos (rfl : (1 : Nat) = 1)]
    dsimp only
    rw [readN_append hlen]
  · obtain ⟨p1, p2, p3, -, -, -, -, p8, p9, p10, p11⟩ :=
      queryExtensionRewriteBody_props bo seq hseq
    exact ⟨p1, p2, p3, p8, p9, p10, p11⟩

/-- C3 witness: a concrete little-endian `QueryExtension("DRI3")`
request against an empty allow-list, then a concrete matching server
Reply that is discarded and replaced by the queued body. -/
theorem x11_queryextension_unlisted_witness :
    consumeClientRequest [] [] ⟨.le, 1, []⟩
        [98, 0, 3, 0, 4, 0, 0, 0, 68, 82, 73, 51] =
      .ok ⟨⟨.le, 2, [⟨1, queryExtensionRewriteBody .le 1,
          "QueryExtension rejection"⟩]⟩,
        [98, 0, 3, 0, 4, 0, 0, 0, 68, 82, 73, 51], [], []⟩ ∧
    consumeServerReply ⟨.le, 2, [⟨1, queryExtensionRewriteBody .le 1,
          "QueryExtension rejection"⟩]⟩
        ([1, 0, 1, 0, 1, 0, 0, 0, 99, 99, 99, 99, 99, 99, 99, 99, 99, 99,
          99, 99, 99, 99, 99, 99, 99, 99, 99, 99, 99, 99, 99, 99] ++
          [7, 7, 7, 7]) =
      .ok ⟨⟨.le, 2, []⟩, queryExtensionRewriteBody .le 1, []⟩ := by
  have h := x11_queryextension_unlisted [] [] .le 1 [] (by decide)
  constructor
  · have h1 := h.1 0 3 [4, 0, 0, 0, 68, 82, 73, 51] [] (by decide) (by decide)
      (by decide) (by decide) (by decide)
    exact h1
  · have h2 := h.2.1 2 (queryExtensionRewriteBody .le 1)
      "QueryExtension rejection" []
      [1, 0, 1, 0, 1, 0, 0, 0, 99, 99, 99, 99, 99, 99, 99, 99, 99, 99,
        99, 99, 99, 99, 99, 99, 99, 99, 99, 99, 99, 99, 99, 99]
      [7, 7, 7, 7] [] (by decide) (by decide) (by decide) (by decide)
    simpa using h2

/-- C10: the X11 surrogate rejects a client connection-setup message
whose byte-order byte is neither 0x42 nor 0x6C, or whose advertised
protocol version is not 11.0, with an error — and in both cases nothing
has been forwarded to the real X server (`toServer = []`); the error
return makes `proxyConns` drop the connection. -/
theorem x11_setup_rejects_bad_setup (input : List Nat) :
    ((input.getD 0 0 ≠ 0x42 ∧ input.getD 0 0 ≠ 0x6C) →
      (consumeClientConnectionSetup input).toServer = [] ∧
      ∃ e, (consumeClientConnectionSetup input).outcome = .error e) ∧
    (∀ bo : ByteOrder,
      byteOrderOf (input.getD 0 0) = some bo →
      ¬ (bo16 bo (input.getD 2 0) (input.getD 3 0) = 11 ∧
          bo16 bo (input.getD 4 0) (input.getD 5 0) = 0) →
      (consumeClientConnectionSetup input).toServer = [] ∧
      ∃ e, (consumeClientConnectionSetup input).outcome = .error e) := by
  constructor
  · intro ⟨h42, h6C⟩
    unfold consumeClientConnectionSetup
    cases hr : readN 12 input with
    | none => exact ⟨rfl, _, rfl⟩
    | some p =>
      obtain ⟨hdr, rest0⟩ := p
      have h0 : hdr.getD 0 0 = input.getD 0 0 := readN_getD hr (by omega)
      dsimp only
      rw [h0]
      unfold byteOrderOf
      rw [if_neg h42, if_neg h6C]
      exact ⟨rfl, _, rfl⟩
  · intro bo hbo hver
    unfold consumeClientConnectionSetup
    cases hr : readN 12 input with
    | none => exact ⟨rfl, _, rfl⟩
    | some p =>
      obtain ⟨hdr, rest0⟩ := p
      have h0 : hdr.getD 0 0 = input.getD 0 0 := readN_getD hr (by omega)
      have h2 : hdr.getD 2 0 = input.getD 2 0 := readN_getD hr (by omega)
      have h3 : hdr.getD 3 0 = input.getD 3 0 := readN_getD hr (by omega)
      have h4 : hdr.getD 4 0 = input.getD 4 0 := readN_getD hr (by omega)
      have h5 : hdr.getD 5 0 = input.getD 5 0 := readN_getD hr (by omega)
      dsimp only
      rw [h0, hbo]
      dsimp only
      rw [h2, h3, h4, h5, if_pos hver]
      exact ⟨rfl, _, rfl⟩

/-- C10 witness: a setup header with byte-order byte 0, and a
little-endian header advertising protocol 10.0, are both rejected with
nothing forwarded. -/
theorem x11_setup_rejects_bad_setup_witness :
    ((consumeClientConnectionSetup
        [0, 0, 11, 0, 0, 0, 0, 0, 0, 0, 0, 0]).toServer = [] ∧
      ∃ e, (consumeClientConnectionSetup
        [0, 0, 11, 0, 0, 0, 0, 0, 0, 0, 0, 0]).outcome = .error e) ∧
    ((consumeClientConnectionSetup
        [0x6C, 0, 10, 0, 0, 0, 0, 0, 0, 0, 0, 0]).toServer = [] ∧
      ∃ e, (consumeClientConnectionSetup
        [0x6C, 0, 10, 0, 0, 0, 0, 0, 0, 0, 0, 0]).outcome = .error e) := by
  constructor
  · exact (x11_setup_rejects_bad_setup
      [0, 0, 11, 0, 0, 0, 0, 0, 0, 0, 0, 0]).1 (by decide)
  · exact (x11_setup_rejects_bad_setup
      [0x6C, 0, 10, 0, 0, 0, 0, 0, 0, 0, 0, 0]).2 .le (by decide) (by decide)

/-- C5 (failing evaluation): on a cache holding two accepted entries for
`libA.so` in discovery order `(hwcap 1, os_version 0)` then
`(hwcap 0, os_version 1)`, the stored sequence after the `LoadCache`
sort phase is `(hwcap 0, os_version 1)` then `(hwcap 1, os_version 0)`
— `hwcap` ASCENDING, violating the claimed
(hwcap desc, os_version desc) order: `cacheEntries.Less` answers `true`
whenever `osVersion` is bigger even when `hwcap` is smaller, contrary to
its own `Bigger hwcap should come first` comment and to the
`sort.Interface` ordering contract. -/
theorem loadCache_sort_not_hwcap_descending :
    (loadCacheParse c5CacheFile 1 (fun _ => true)).map
        (fun st => st.map (fun kv => kv.2.map (fun e => (e.hwcap, e.osVersion)))) =
      .ok [[(0, 1), (1, 0)]] := by
  rfl

/-- C6 (failing evaluation): a cache file with valid magics and a valid
fixed new-format header declaring `nlibs = 1` but no record array drives
`rawLibs := b[:nlibs*entrySz]` / `b = b[len(rawLibs):]` out of range:
`LoadCache` panics instead of returning a `Malformed`-style error. -/
theorem loadCache_truncated_records_panics :
    loadCacheParse c6TruncatedFile 1 (fun _ => true) =
      .error (.goPanic "slice bounds out of range (rawLibs)") := by
  rfl

theorem isPIAnswer_onCmdProtocolInfo (tv : String) (sc : List (List Char)) :
    isPIAnswer (onCmdProtocolInfo tv sc) = true := by
  unfold onCmdProtocolInfo
  cases h : (sc.drop 1).find? (fun v => ¬ goParseInt32Ok v) with
  | some v =>
    unfold isPIAnswer
    rw [Bool.or_eq_true, beq_iff_eq, beq_iff_eq]
    right
    rw [String.data_append, String.data_append]
    rfl
  | none =>
    unfold isPIAnswer protocolInfoResponse
    rw [Bool.or_eq_true, beq_iff_eq, beq_iff_eq]
    left
    rw [String.data_append, String.data_append, String.data_append]
    rfl

theorem piCount_processPreAuth (tv : String) :
    ∀ (lines : List (List Char)) (sent : Bool),
      ((processPreAuth tv sent lines).1.countP isPIAnswer) ≤
        (if sent then 0 else 1) := by
  intro lines
  induction lines with
  | nil =>
    intro sent
    cases sent <;> simp [processPreAuth]
  | cons line rest ih =>
    intro sent
    by_cases h1 : cmdOf line = "PROTOCOLINFO".data
    · cases sent with
      | false =>
        have hr := ih true
        simp only [if_true, Nat.le_zero] at hr
        simp [processPreAuth, h1, List.countP_cons, isPIAnswer_onCmdProtocolInfo, hr]
      | true =>
        have hpi : isPIAnswer errAuthenticationRequired = false := by
          unfold isPIAnswer errAuthenticationRequired
          rw [String.data_append]
          rfl
        simp [processPreAuth, h1, List.countP_cons, hpi]
    · by_cases h2 : cmdOf line = "AUTHENTICATE".data
      · have hpi : isPIAnswer responseOk = false := by
          unfold isPIAnswer responseOk
          rw [String.data_append]
          rfl
        cases sent <;>
          simp [processPreAuth, h1, h2, List.countP_cons, hpi]
      · by_cases h3 : cmdOf line = "AUTHCHALLENGE".data
        · have hpi : isPIAnswer errUnrecognizedCommand = false := by
            unfold isPIAnswer errUnrecognizedCommand
            rw [String.data_append]
            rfl
          cases sent <;>
            simp [processPreAuth, h1, h2, h3, List.countP_cons, hpi]
        · by_cases h4 : cmdOf line = "QUIT".data
          · cases sent <;> simp [processPreAuth, h1, h2, h3, h4]
          · have hpi : isPIAnswer errAuthenticationRequired = false := by
              unfold isPIAnswer errAuthenticationRequired
              rw [String.data_append]
              rfl
            cases sent <;>
              simp [processPreAuth, h1, h2, h3, h4, List.countP_cons, hpi]

/-- C8: on a control client that has not yet authenticated, a second
`PROTOCOLINFO` is rejected: the first is answered synthetically, the
second draws `514 Authentication required` and the connection is closed
(the loop returns an error, so no further line is processed); moreover
on any pre-auth trace at most one synthetic `PROTOCOLINFO` answer is
ever written. -/
theorem ctrl_preauth_protocolinfo_once (tv : String) (l1 l2 : List Char)
    (rest : List (List Char))
    (h1 : cmdOf l1 = "PROTOCOLINFO".data) (h2 : cmdOf l2 = "PROTOCOLINFO".data) :
    processPreAuth tv false (l1 :: l2 :: rest) =
      ([onCmdProtocolInfo tv (splitCmdOf l1), errAuthenticationRequired],
        .closed "client already sent PROTOCOLINFO already") ∧
    ∀ (sent : Bool) (lines : List (List Char)),
      ((processPreAuth tv sent lines).1.countP isPIAnswer) ≤ 1 := by
  constructor
  · simp [processPreAuth, h1, h2]
  · intro sent lines
    have h := piCount_processPreAuth tv lines sent
    cases sent
    · simpa using h
    · simp only [if_true] at h
      omega

/-- C8 witness: the two-`PROTOCOLINFO` trace at concrete lines. -/
theorem ctrl_preauth_protocolinfo_once_witness :
    processPreAuth "0.2.9" false ["PROTOCOLINFO".data, " protocolinfo 1".data] =
      ([onCmdProtocolInfo "0.2.9" (splitCmdOf "PROTOCOLINFO".data),
        errAuthenticationRequired],
        .closed "client already sent PROTOCOLINFO already") :=
  (ctrl_preauth_protocolinfo_once "0.2.9" "PROTOCOLINFO".data
    " protocolinfo 1".data [] (by decide) (by decide)).1

theorem monoSt_refl (a : RState) : MonoSt a a :=
  ⟨fun _ h => h, fun _ h => h, fun _ h => h, fun _ h => h⟩

theorem monoSt_trans {a b c : RState} (h1 : MonoSt a b) (h2 : MonoSt b c) :
    MonoSt a c :=
  ⟨fun _ h => h2.1 (h1.1 h), fun _ h => h2.2.1 (h1.2.1 h),
    fun _ h => h2.2.2.1 (h1.2.2.1 h), fun _ h => h2.2.2.2 (h1.2.2.2 h)⟩

theorem originRel_refl (a : RState) : OriginRel a a :=
  fun _ _ h => .inl h

theorem originRel_trans {a b c : RState} (h1 : OriginRel a b)
    (h2 : OriginRel b c) (hm : MonoSt b c) : OriginRel a c := by
  intro l p hp
  rcases h2 l p hp with h | h | h
  · rcases h1 l p h with h3 | h3 | h3
    · exact .inl h3
    · exact .inr (.inl (hm.2.1 h3))
    · exact .inr (.inr (hm.2.2.2 h3))
  · exact .inr (.inl h)
  · exact .inr (.inr h)

theorem insertOnce_subset (l : List String) (x : String) :
    l ⊆ insertOnce l x := by
  intro y hy
  unfold insertOnce
  split
  · exact hy
  · exact List.mem_append_left _ hy

theorem insertOnce_self (l : List String) (x : String) :
    x ∈ insertOnce l x := by
  unfold insertOnce
  split
  · assumption
  · simp

theorem resolveLib_true {cfg : RCfg} {lib p : String}
    (h : resolveLib cfg lib = some (p, true)) :
    isInPath cfg.fs lib cfg.searchPaths = some p := by
  unfold resolveLib at h
  cases hip : isInPath cfg.fs lib cfg.searchPaths with
  | some q =>
    rw [hip] at h
    simp at h
    rw [h]
  | none =>
    rw [hip] at h
    dsimp only at h
    split at h
    · simp at h
    · split at h <;> simp at h

theorem processLib_spec {cfg : RCfg} {st : RState} {lib : String}
    {st2 : RState} (h : processLib cfg st lib = .ok st2) :
    MonoSt st st2 ∧
    st2.checkedFile = st.checkedFile ∧
    st2.pendingExtras = st.pendingExtras ∧
    lib ∈ st2.checkedLib ∧
    OriginRel st st2 ∧
    (INVlib st → INVlib st2) ∧
    (INVchk cfg st → INVchk cfg st2) := by
  unfold processLib at h
  by_cases hmem : lib ∈ st.checkedLib
  · rw [if_pos hmem] at h
    injection h with h2
    subst h2
    exact ⟨monoSt_refl st, rfl, rfl, hmem, originRel_refl st,
      fun x => x, fun x => x⟩
  · rw [if_neg hmem] at h
    cases hres : resolveLib cfg lib with
    | none =>
      rw [hres] at h
      cases h
    | some pr =>
      obtain ⟨libPath, inLd⟩ := pr
      rw [hres] at h
      injection h with h2
      subst h2
      cases inLd with
      | true =>
        refine ⟨⟨fun x hx => hx, fun x hx => hx,
            fun x hx => List.mem_append_left _ hx, ?_⟩, rfl, rfl, ?_, ?_, ?_, ?_⟩
        · intro x hx
          dsimp only
          split
          · exact hx
          · exact insertOnce_subset _ _ hx
        · simp
        · intro l p hp
          exact .inl hp
        · intro hinv l p hp
          exact List.mem_append_left _ (hinv l p hp)
        · intro hinv s hs
          dsimp only at hs
          rcases List.mem_append.mp hs with hs | hs
          · exact hinv s hs
          · simp at hs
            subst hs
            left
            rw [resolveLib_true hres]
            rfl
      | false =>
        refine ⟨⟨fun x hx => List.mem_append_left _ hx, fun x hx => hx,
            fun x hx => List.mem_append_left _ hx, ?_⟩, rfl, rfl, ?_, ?_, ?_, ?_⟩
        · intro x hx
          dsimp only
          split
          · exact hx
          · exact insertOnce_subset _ _ hx
        · simp
        · intro l p hp
          dsimp only at hp
          rcases List.mem_append.mp hp with hp | hp
          · exact .inl hp
          · simp at hp
            obtain ⟨rfl, rfl⟩ := hp
            right
            dsimp only
            split
            · exact .inl (by assumption)
            · exact .inr (insertOnce_self _ _)
        · intro hinv l p hp
          dsimp only at hp
          rcases List.mem_append.mp hp with hp | hp
          · exact List.mem_append_left _ (hinv l p hp)
          · simp at hp
            obtain ⟨rfl, rfl⟩ := hp
            simp
        · intro hinv s hs
          dsimp only at hs
          rcases List.mem_append.mp hs with hs | hs
          · rcases hinv s hs with h2 | ⟨p, hp⟩
            · exact .inl h2
            · exact .inr ⟨p, List.mem_append_left _ hp⟩
          · simp at hs
            subst hs
            right
            exact ⟨libPath, List.mem_append_right _ (by simp)⟩

theorem processLibs_spec {cfg : RCfg} :
    ∀ {libs : List String} {st st2 : RState},
    processLibs cfg st libs = .ok st2 →
    MonoSt st st2 ∧
    st2.checkedFile = st.checkedFile ∧
    st2.pendingExtras = st.pendingExtras ∧
    (∀ s ∈ libs, s ∈ st2.checkedLib) ∧
    OriginRel st st2 ∧
    (INVlib st → INVlib st2) ∧
    (INVchk cfg st → INVchk cfg st2) := by
  intro libs
  induction libs with
  | nil =>
    intro st st2 h
    unfold processLibs at h
    injection h with h2
    subst h2
    exact ⟨monoSt_refl st, rfl, rfl, by simp, originRel_refl st,
      fun x => x, fun x => x⟩
  | cons lib t ih =>
    intro st st2 h
    unfold processLibs at h
    cases h1 : processLib cfg st lib with
    | error e => rw [h1] at h; cases h
    | ok st1 =>
      rw [h1] at h
      obtain ⟨m1, cf1, pe1, lib1, o1, l1, c1⟩ := processLib_spec h1
      obtain ⟨m2, cf2, pe2, all2, o2, l2, c2⟩ := ih h
      refine ⟨monoSt_trans m1 m2, cf2.trans cf1, pe2.trans pe1, ?_,
        originRel_trans o1 o2 m2, fun x => l2 (l1 x), fun x => c2 (c1 x)⟩
      intro s hs
      rcases List.mem_cons.mp hs with rfl | hs
      · exact m2.2.2.1 lib1
      · exact all2 s hs

theorem processFile_spec {cfg : RCfg} {st : RState} {fn : String}
    {st2 : RState} (h : processFile cfg st fn = .ok st2) :
    MonoSt st st2 ∧
    fn ∈ st2.checkedFile ∧
    OriginRel st st2 ∧
    (INVlib st → INVlib st2) ∧
    (INVchk cfg st → INVchk cfg st2) ∧
    (INVfile cfg st → INVfile cfg st2) := by
  unfold processFile at h
  split at h
  · cases h
  · cases him : cfg.fs.imports fn with
    | none => rw [him] at h; cases h
    | some impLibs =>
      rw [him] at h
      dsimp only at h
      have key :
          ∀ (st1 : RState) (libs : List String),
          st1.libraries = st.libraries →
          st1.checkedFile = insertOnce st.checkedFile fn →
          st1.checkedLib = st.checkedLib →
          st1.newToCheck = st.newToCheck →
          impLibs ⊆ libs →
          processLibs cfg st1 libs = .ok st2 →
          MonoSt st st2 ∧ fn ∈ st2.checkedFile ∧ OriginRel st st2 ∧
            (INVlib st → INVlib st2) ∧ (INVchk cfg st → INVchk cfg st2) ∧
            (INVfile cfg st → INVfile cfg st2) := by
        intro st1 libs e1 e2 e3 e4 hsub hpl
        obtain ⟨m2, cf2, pe2, all2, o2, l2, c2⟩ := processLibs_spec hpl
        have m01 : MonoSt st st1 := by
          refine ⟨?_, ?_, ?_, ?_⟩
          · intro x hx
            rw [e1]
            exact hx
          · intro x hx
            rw [e2]
            exact insertOnce_subset _ _ hx
          · intro x hx
            rw [e3]
            exact hx
          · intro x hx
            rw [e4]
            exact hx
        have hfn : fn ∈ st2.checkedFile := by
          rw [cf2, e2]
          exact insertOnce_self _ _
        have o01 : OriginRel st st1 := by
          intro l p hp
          rw [e1] at hp
          exact .inl hp
        have l01 : INVlib st → INVlib st1 := by
          intro hi l p hp
          rw [e1] at hp
          rw [e3]
          exact hi l p hp
        have c01 : INVchk cfg st → INVchk cfg st1 := by
          intro hi s hs
          rw [e3] at hs
          rcases hi s hs with h2 | ⟨p, hp⟩
          · exact .inl h2
          · exact .inr ⟨p, by rw [e1]; exact hp⟩
        refine ⟨monoSt_trans m01 m2, hfn, originRel_trans o01 o2 m2,
          fun x => l2 (l01 x), fun x => c2 (c01 x), ?_⟩
        intro hf fn2 hfn2
        have hcf : st2.checkedFile = insertOnce st.checkedFile fn := by
          rw [cf2, e2]
        rw [hcf] at hfn2
        unfold insertOnce at hfn2
        by_cases hin : fn ∈ st.checkedFile
        · rw [if_pos hin] at hfn2
          obtain ⟨L, hL, hLall⟩ := hf fn2 hfn2
          exact ⟨L, hL, fun s hs => m2.2.2.1 (by rw [e3]; exact hLall s hs)⟩
        · rw [if_neg hin] at hfn2
          rcases List.mem_append.mp hfn2 with hfn2 | hfn2
          · obtain ⟨L, hL, hLall⟩ := hf fn2 hfn2
            exact ⟨L, hL, fun s hs => m2.2.2.1 (by rw [e3]; exact hLall s hs)⟩
          · simp at hfn2
            subst hfn2
            exact ⟨impLibs, him, fun s hs => all2 s (hsub hs)⟩
      cases hpe : st.pendingExtras with
      | some extras =>
        rw [hpe] at h
        exact key
          ({ st with
              checkedFile := insertOnce st.checkedFile fn
              pendingExtras := none })
          (impLibs ++ extras) rfl rfl rfl rfl
          (fun x hx => List.mem_append_left _ hx) h
      | none =>
        rw [hpe] at h
        exact key
          ({ st with
              checkedFile := insertOnce st.checkedFile fn
              pendingExtras := none })
          impLibs rfl rfl rfl rfl (fun x hx => hx) h

theorem processBatch_spec {cfg : RCfg} :
    ∀ {files : List String} {st st2 : RState},
    processBatch cfg st files = .ok st2 →
    MonoSt st st2 ∧
    (∀ fn ∈ files, fn ∈ st2.checkedFile) ∧
    OriginRel st st2 ∧
    (INVlib st → INVlib st2) ∧
    (INVchk cfg st → INVchk cfg st2) ∧
    (INVfile cfg st → INVfile cfg st2) := by
  intro files
  induction files with
  | nil =>
    intro st st2 h
    unfold processBatch at h
    injection h with h2
    subst h2
    exact ⟨monoSt_refl st, by simp, originRel_refl st,
      fun x => x, fun x => x, fun x => x⟩
  | cons fn t ih =>
    intro st st2 h
    unfold processBatch at h
    cases h1 : processFile cfg st fn with
    | error e => rw [h1] at h; cases h
    | ok st1 =>
      rw [h1] at h
      obtain ⟨m1, f1, o1, l1, c1, ff1⟩ := processFile_spec h1
      obtain ⟨m2, all2, o2, l2, c2, ff2⟩ := ih h
      refine ⟨monoSt_trans m1 m2, ?_, originRel_trans o1 o2 m2,
        fun x => l2 (l1 x), fun x => c2 (c1 x), fun x => ff2 (ff1 x)⟩
      intro g hg
      rcases List.mem_cons.mp hg with rfl | hg
      · exact m2.2.1 f1
      · exact all2 g hg

theorem resolveLoop_spec {cfg : RCfg} :
    ∀ {fuel : Nat} {st : RState} {toCheck : List String} {st2 : RState},
    resolveLoop cfg fuel st toCheck = .ok st2 →
    INVlib st → INVchk cfg st → INVfile cfg st →
    (∀ l p, (l, p) ∈ st.libraries → p ∈ st.checkedFile ∨ p ∈ toCheck) →
    INVlib st2 ∧ INVchk cfg st2 ∧ INVfile cfg st2 ∧
    (∀ l p, (l, p) ∈ st2.libraries → p ∈ st2.checkedFile) := by
  intro fuel
  induction fuel with
  | zero =>
    intro st toCheck st2 h
    cases h
  | succ f ih =>
    intro st toCheck st2 h hlib hchk hfile horig
    unfold resolveLoop at h
    by_cases he : toCheck.isEmpty
    · rw [if_pos he] at h
      injection h with h2
      subst h2
      have he2 : toCheck = [] := List.isEmpty_iff.mp he
      subst he2
      refine ⟨hlib, hchk, hfile, ?_⟩
      intro l p hp
      rcases horig l p hp with h2 | h2
      · exact h2
      · simp at h2
    · rw [if_neg he] at h
      cases hb : processBatch cfg { st with newToCheck := [] } toCheck with
      | error e => rw [hb] at h; cases h
      | ok stB =>
        rw [hb] at h
        obtain ⟨mB, allB, oB, lB, cB, fB⟩ := processBatch_spec hb
        have hlibM : INVlib { st with newToCheck := ([] : List String) } := hlib
        have hchkM : INVchk cfg { st with newToCheck := ([] : List String) } := hchk
        have hfileM : INVfile cfg { st with newToCheck := ([] : List String) } := hfile
        refine ih h (lB hlibM) (cB hchkM) (fB hfileM) ?_
        intro l p hp
        rcases oB l p hp with h2 | h2 | h2
        · rcases horig l p h2 with h3 | h3
          · exact .inl (mB.2.1 h3)
          · exact .inl (allB p h3)
        · exact .inl h2
        · exact .inr h2

theorem addAlias_self (ret : List (String × List String)) (f lib : String) :
    ∃ as2, (f, as2) ∈ addAlias ret f lib ∧ lib ∈ as2 := by
  induction ret with
  | nil => exact ⟨[lib], by simp [addAlias], by simp⟩
  | cons kv t ih =>
    obtain ⟨k, v⟩ := kv
    unfold addAlias
    by_cases hk : k = f
    · subst hk
      rw [if_pos rfl]
      exact ⟨v ++ [lib], by simp, by simp⟩
    · rw [if_neg hk]
      obtain ⟨as2, hmem, hin⟩ := ih
      exact ⟨as2, List.mem_cons_of_mem _ hmem, hin⟩

theorem addAlias_trace {ret : List (String × List String)} {f lib p : String}
    {as2 : List String} {a : String}
    (hmem : (p, as2) ∈ addAlias ret f lib) (ha : a ∈ as2) :
    (∃ as0, (p, as0) ∈ ret ∧ a ∈ as0) ∨ (p = f ∧ a = lib) := by
  induction ret with
  | nil =>
    unfold addAlias at hmem
    simp at hmem
    obtain ⟨rfl, rfl⟩ := hmem
    simp at ha
    exact .inr ⟨rfl, ha⟩
  | cons kv t ih =>
    obtain ⟨k, v⟩ := kv
    unfold addAlias at hmem
    by_cases hk : k = f
    · subst hk
      rw [if_pos rfl] at hmem
      rcases List.mem_cons.mp hmem with h2 | h2
      · injection h2 with e1 e2
        subst e1
        subst e2
        rcases List.mem_append.mp ha with h3 | h3
        · exact .inl ⟨v, by simp, h3⟩
        · simp at h3
          exact .inr ⟨rfl, h3⟩
      · exact .inl ⟨as2, List.mem_cons_of_mem _ h2, ha⟩
    · rw [if_neg hk] at hmem
      rcases List.mem_cons.mp hmem with h2 | h2
      · injection h2 with e1 e2
        subst e1
        subst e2
        exact .inl ⟨as2, by simp, ha⟩
      · rcases ih h2 with ⟨as0, h3, h4⟩ | h3
        · exact .inl ⟨as0, List.mem_cons_of_mem _ h3, h4⟩
        · exact .inr h3

theorem addAlias_persist {ret : List (String × List String)}
    {p : String} {as0 : List String} {a : String} (f lib : String)
    (hmem : (p, as0) ∈ ret) (ha : a ∈ as0) :
    ∃ as2, (p, as2) ∈ addAlias ret f lib ∧ a ∈ as2 := by
  induction ret with
  | nil => simp at hmem
  | cons kv t ih =>
    obtain ⟨k, v⟩ := kv
    unfold addAlias
    by_cases hk : k = f
    · subst hk
      rw [if_pos rfl]
      rcases List.mem_cons.mp hmem with h2 | h2
      · injection h2 with e1 e2
        subst e1
        subst e2
        exact ⟨as0 ++ [lib], by simp, List.mem_append_left _ ha⟩
      · exact ⟨as0, List.mem_cons_of_mem _ h2, ha⟩
    · rw [if_neg hk]
      rcases List.mem_cons.mp hmem with h2 | h2
      · exact ⟨as0, List.mem_cons.mpr (.inl h2), ha⟩
      · obtain ⟨as2, h3, h4⟩ := ih h2
        exact ⟨as2, List.mem_cons_of_mem _ h3, h4⟩

theorem addAlias_ne_nil {ret : List (String × List String)} {f lib : String}
    (hne : ∀ q v, (q, v) ∈ ret → v ≠ [])
    {p : String} {as2 : List String} (hmem : (p, as2) ∈ addAlias ret f lib) :
    as2 ≠ [] := by
  induction ret with
  | nil =>
    unfold addAlias at hmem
    simp at hmem
    rw [hmem.2]
    simp
  | cons kv t ih =>
    obtain ⟨k, v⟩ := kv
    unfold addAlias at hmem
    by_cases hk : k = f
    · subst hk
      rw [if_pos rfl] at hmem
      rcases List.mem_cons.mp hmem with h2 | h2
      · injection h2 with e1 e2
        subst e2
        simp
      · exact hne p as2 (List.mem_cons_of_mem _ h2)
    · rw [if_neg hk] at hmem
      rcases List.mem_cons.mp hmem with h2 | h2
      · injection h2 with e1 e2
        subst e2
        subst e1
        exact hne p as2 (by simp)
      · exact ih (fun q w hw => hne q w (List.mem_cons_of_mem _ hw)) h2

theorem finalize_persist {fs : FileSys} :
    ∀ {libs : List (String × String)} {acc ret : List (String × List String)},
    finalize fs libs acc = .ok ret →
    ∀ p as0 a, (p, as0) ∈ acc → a ∈ as0 →
      ∃ as2, (p, as2) ∈ ret ∧ a ∈ as2 := by
  intro libs
  induction libs with
  | nil =>
    intro acc ret h p as0 a hmem ha
    unfold finalize at h
    injection h with h2
    subst h2
    exact ⟨as0, hmem, ha⟩
  | cons lf t ih =>
    intro acc ret h p as0 a hmem ha
    obtain ⟨lib, fn⟩ := lf
    unfold finalize at h
    cases hre : fs.real fn with
    | none => rw [hre] at h; cases h
    | some f =>
      rw [hre] at h
      obtain ⟨as1, hm1, ha1⟩ := addAlias_persist f lib hmem ha
      exact ih h p as1 a hm1 ha1

theorem finalize_trace {fs : FileSys} :
    ∀ {libs : List (String × String)} {acc ret : List (String × List String)},
    finalize fs libs acc = .ok ret →
    ∀ p as2 a, (p, as2) ∈ ret → a ∈ as2 →
      (∃ as0, (p, as0) ∈ acc ∧ a ∈ as0) ∨
        ∃ fn, (a, fn) ∈ libs ∧ fs.real fn = some p := by
  intro libs
  induction libs with
  | nil =>
    intro acc ret h p as2 a hmem ha
    unfold finalize at h
    injection h with h2
    subst h2
    exact .inl ⟨as2, hmem, ha⟩
  | cons lf t ih =>
    intro acc ret h p as2 a hmem ha
    obtain ⟨lib, fn⟩ := lf
    unfold finalize at h
    cases hre : fs.real fn with
    | none => rw [hre] at h; cases h
    | some f =>
      rw [hre] at h
      rcases ih h p as2 a hmem ha with ⟨as0, hm0, ha0⟩ | ⟨fn2, hm2, hr2⟩
      · rcases addAlias_trace hm0 ha0 with ⟨as1, hm1, ha1⟩ | ⟨rfl, rfl⟩
        · exact .inl ⟨as1, hm1, ha1⟩
        · exact .inr ⟨fn, by simp, hre⟩
      · exact .inr ⟨fn2, List.mem_cons_of_mem _ hm2, hr2⟩

theorem finalize_covers {fs : FileSys} :
    ∀ {libs : List (String × String)} {acc ret : List (String × List String)},
    finalize fs libs acc = .ok ret →
    ∀ l fn, (l, fn) ∈ libs → ∃ p as2, (p, as2) ∈ ret ∧ l ∈ as2 := by
  intro libs
  induction libs with
  | nil =>
    intro acc ret h l fn hmem
    simp at hmem
  | cons lf t ih =>
    intro acc ret h l fn hmem
    obtain ⟨lib, fn0⟩ := lf
    unfold finalize at h
    cases hre : fs.real fn0 with
    | none => rw [hre] at h; cases h
    | some f =>
      rw [hre] at h
      rcases List.mem_cons.mp hmem with h2 | h2
      · injection h2 with e1 e2
        subst e1
        obtain ⟨as2, hm2, hin2⟩ := addAlias_self acc f l
        obtain ⟨as3, hm3, hin3⟩ := finalize_persist h f as2 l hm2 hin2
        exact ⟨f, as3, hm3, hin3⟩
      · exact ih h l fn h2

theorem finalize_ne_nil {fs : FileSys} :
    ∀ {libs : List (String × String)} {acc ret : List (String × List String)},
    finalize fs libs acc = .ok ret →
    (∀ q v, (q, v) ∈ acc → v ≠ []) →
    ∀ p v, (p, v) ∈ ret → v ≠ [] := by
  intro libs
  induction libs with
  | nil =>
    intro acc ret h hacc p v hmem
    unfold finalize at h
    injection h with h2
    subst h2
    exact hacc p v hmem
  | cons lf t ih =>
    intro acc ret h hacc p v hmem
    obtain ⟨lib, fn⟩ := lf
    unfold finalize at h
    cases hre : fs.real fn with
    | none => rw [hre] at h; cases h
    | some f =>
      rw [hre] at h
      exact ih h (fun q w hw => addAlias_ne_nil hacc hw) p v hmem

/-- C7 (amended): for every closure returned by `ResolveLibraries`,
every SONAME imported by a path of the closure either resolves through
the primary (`LD_LIBRARY_PATH`) search path — such libraries are
deliberately left out of the mount set — or is mapped to some path of
the closure.  `hcoh` states that `EvalSymlinks` preserves file contents
(the canonical path has the same import list). -/
theorem resolver_closure_import_closed_modulo_ldpath
    (cfg : RCfg) (binaries : List String) (extraLibs : Option (List String))
    (fuel : Nat) (ret : List (String × List String))
    (hok : resolveLibraries cfg binaries extraLibs fuel = .ok ret)
    (hcoh : ∀ q r, cfg.fs.real q = some r → cfg.fs.imports r = cfg.fs.imports q) :
    ∀ p as2, (p, as2) ∈ ret → ∀ L, cfg.fs.imports p = some L →
      ∀ s ∈ L, (isInPath cfg.fs s cfg.searchPaths).isSome ∨
        ∃ p2 as3, (p2, as3) ∈ ret ∧ s ∈ as3 := by
  intro p as2 hmem L himp s hs
  unfold resolveLibraries at hok
  cases hloop : resolveLoop cfg fuel ⟨[], [], [], [], extraLibs⟩ binaries with
  | error e => rw [hloop] at hok; cases hok
  | ok st =>
    rw [hloop] at hok
    obtain ⟨hlib, hchk, hfile, hvals⟩ := resolveLoop_spec hloop
      (by intro l q h2; simp at h2)
      (by intro x h2; simp at h2)
      (by intro x h2; simp at h2)
      (by intro l q h2; simp at h2)
    have hne : as2 ≠ [] := finalize_ne_nil hok (by intro q v h2; simp at h2)
      p as2 hmem
    obtain ⟨a, ha⟩ := List.exists_mem_of_ne_nil as2 hne
    rcases finalize_trace hok p as2 a hmem ha with ⟨as0, hm0, -⟩ | ⟨fn, hmf, hrf⟩
    · simp at hm0
    · have hfn : fn ∈ st.checkedFile := hvals a fn hmf
      obtain ⟨L2, hL2, hL2all⟩ := hfile fn hfn
      have : cfg.fs.imports p = cfg.fs.imports fn := hcoh fn p hrf
      rw [himp, hL2] at this
      injection this with e
      subst e
      have hschk : s ∈ st.checkedLib := hL2all s hs
      rcases hchk s hschk with h2 | ⟨q, hq⟩
      · exact .inl h2
      · obtain ⟨p2, as3, hm3, hin3⟩ := finalize_covers hok s q hq
        exact .inr ⟨p2, as3, hm3, hin3⟩

/-- C7 witness for the amended theorem: in the concrete configuration
`c7Cfg`, the closure is `[("/a/libA.so", ["libA.so"])]` and the only
imported SONAME `libS.so` of `/a/libA.so` falls under the first
(primary search path) disjunct. -/
theorem resolver_closure_import_closed_modulo_ldpath_witness :
    (isInPath c7Cfg.fs "libS.so" c7Cfg.searchPaths).isSome ∨
      ∃ p2 as3, (p2, as3) ∈ [("/a/libA.so", ["libA.so"])] ∧ "libS.so" ∈ as3 := by
  have h := resolver_closure_import_closed_modulo_ldpath c7Cfg ["B"] none 10
    [("/a/libA.so", ["libA.so"])] (by rfl)
    (by
      intro q r hqr
      simp only [c7Cfg] at hqr ⊢
      injection hqr with e
      rw [e])
    "/a/libA.so" ["libA.so"] (by simp) ["libS.so"] (by rfl) "libS.so" (by simp)
  exact h

/-- C7 (counterexample to the claim as stated): in `c7Cfg` the returned
closure is exactly `[("/a/libA.so", ["libA.so"])]`, the path
`/a/libA.so` imports `libS.so`, and `libS.so` is not mapped to any path
of the closure — the import was satisfied through `LD_LIBRARY_PATH` and
deliberately not registered. -/
theorem resolver_closure_not_import_closed :
    resolveLibraries c7Cfg ["B"] none 10 =
      .ok [("/a/libA.so", ["libA.so"])] ∧
    c7Cfg.fs.imports "/a/libA.so" = some ["libS.so"] ∧
    ¬ ∃ p2 as3, (p2, as3) ∈ [("/a/libA.so", ["libA.so"])] ∧
      ("libS.so" : String) ∈ as3 := by
  refine ⟨by rfl, by rfl, ?_⟩
  rintro ⟨p2, as3, hmem, hs⟩
  simp at hmem
  obtain ⟨rfl, rfl⟩ := hmem
  simp at hs

end STB
